import Mathlib

/-!
Verification of the fs-booking seat-reservation backend.

The definitions below are a shallow embedding of the repository's core:

* the Redis Lua scripts of the Seat Reservation Engine
  (`batch-seat-reservation.lua`, `confirm-seats.lua`, `release-seats.lua`,
  `cleanup-expired-holds.lua`, `get-seats-status.lua`, and the inline
  extend-hold script in `seat-reservation.service.ts`),
* the Booking Orchestrator (`booking.service.ts`: `holdSeats`,
  `cancelBooking`, `confirmSeatsAfterPayment`,
  `releaseSeatsAfterPaymentFailure`),
* the Payment Webhook Reconciler (`payment.service.ts`: `handleWebhook`),
* the Idempotency Layer (`idempotency.service.ts`: `checkIdempotencyKey`,
  `hashRequestBody` / `sortObjectKeys`).

A Redis hash is modelled as an association list; script atomicity lets every
Lua script be a pure function from state to state.  Timestamps are `Int`
epoch seconds (`redis.call('TIME')[1]`), counters are `Int` (Redis DECRBY /
INCRBY on a missing key treats it as 0).
-/

namespace FsBooking

/-- A seat record as stored in one field of the Redis hash
`showtime:{showtimeId}:seats`.  The Lua scripts store a JSON object whose
fields vary by state; absent JSON fields are `none`.  Mirrors
`SeatStatusData` in `seat-reservation.interface.ts` (`status`, `seat_type`,
`booking_id`, `held_until`, `reserved_at`, `confirmed_at`, `released_at`,
`released_reason`, `previous_booking`). -/
structure SeatRec where
  status : String
  seat_type : String
  booking_id : Option String := none
  held_until : Option Int := none
  reserved_at : Option Int := none
  confirmed_at : Option Int := none
  released_at : Option Int := none
  released_reason : Option String := none
  previous_booking : Option String := none
deriving DecidableEq, Repr

/-- Association-list lookup, modelling `redis.call('HGET', key, field)`
(and `Map.get` style lookups in the TypeScript layer). -/
def alookup {β : Type _} : List (String × β) → String → Option β
  | [], _ => none
  | p :: rest, k => if p.1 = k then some p.2 else alookup rest k

/-- Association-list update, modelling `redis.call('HSET', key, field, v)`:
replace the binding if the field exists, append it otherwise. -/
def aset {β : Type _} : List (String × β) → String → β → List (String × β)
  | [], k, v => [(k, v)]
  | p :: rest, k, v => if p.1 = k then (k, v) :: rest else p :: aset rest k v

/-- The per-showtime seat hash `showtime:{showtimeId}:seats`. -/
abbrev SeatMap := List (String × SeatRec)

/-- The live state of one showtime in Redis: the seat hash plus the
`showtime:{showtimeId}:available` counter. -/
structure ShowState where
  seats : SeatMap
  available : Int
deriving DecidableEq, Repr

/-- `count(seat.status = available)` over the seat hash; the quantity the
spec's counter invariant compares against `available:{showtime_id}`. -/
def countAvailable (m : SeatMap) : Nat :=
  (m.filter (fun p => decide (p.2.status = "available"))).length

/-- 1 if the (optional) record is in status `available`, else 0. -/
def availBit (o : Option SeatRec) : Nat :=
  match o with
  | some r => if r.status = "available" then 1 else 0
  | none => 0

/-- A record is well-formed when its status is one of the three seat states
and, as in every record the engine ever writes, an `available` record
carries no `booking_id` field. -/
def wfRec (r : SeatRec) : Prop :=
  (r.status = "available" ∨ r.status = "held" ∨ r.status = "booked") ∧
    (r.status = "available" → r.booking_id = none)

instance (r : SeatRec) : Decidable (wfRec r) := by
  unfold wfRec; infer_instance

/-- Well-formedness of a whole seat hash. -/
def wellFormed (m : SeatMap) : Prop := ∀ p ∈ m, wfRec p.2

instance (m : SeatMap) : Decidable (wellFormed m) := by
  unfold wellFormed; infer_instance

/-- The counter invariant of the spec:
`available:{showtime_id} == count(seat.status=available)`. -/
def counterOk (st : ShowState) : Prop :=
  st.available = (countAvailable st.seats : Int)

instance (st : ShowState) : Decidable (counterOk st) := by
  unfold counterOk; infer_instance


/-! ### The Seat Reservation Engine scripts -/

/-- Phase-1 classification entry of `batch-seat-reservation.lua`: a seat that
passed validation, with the `was_available` flag the script records in
`seats_to_check`. -/
structure Check where
  id : String
  ty : String
  was_available : Bool
deriving DecidableEq, Repr

/-- Phase 1 of `batch-seat-reservation.lua` for a single requested
`seat_id:seat_type` pair: `HGET` the seat and classify it as unavailable
(`NOT_FOUND` / `BOOKED` / `HELD`) or reservable.  Note the script flags
`HELD` for any unexpired hold, without comparing `booking_id`, and sets
`was_available` exactly when the status is neither `booked` nor `held`. -/
def classifySeat (m : SeatMap) (now : Int) (s : String × String) :
    Except (String × String) Check :=
  match alookup m s.1 with
  | none => .error (s.1, "NOT_FOUND")
  | some r =>
    if r.status = "booked" then .error (s.1, "BOOKED")
    else if r.status = "held" then
      if r.held_until.getD 0 > now then .error (s.1, "HELD")
      else .ok ⟨s.1, s.2, false⟩
    else .ok ⟨s.1, s.2, true⟩

/-- The record phase 2 of `batch-seat-reservation.lua` writes for each
reserved seat: `{status='held', booking_id, held_until, seat_type,
reserved_at=now}`. -/
def heldRec (booking_id : String) (hold_expire : Int) (ty : String) (now : Int) : SeatRec :=
  { status := "held", seat_type := ty, booking_id := some booking_id,
    held_until := some hold_expire, reserved_at := some now }

/-- Phase 2 of `batch-seat-reservation.lua`: `HSET` every checked seat to a
fresh held record. -/
def batchWrite (booking_id : String) (hold_expire : Int) (now : Int)
    (m : SeatMap) (checks : List Check) : SeatMap :=
  checks.foldl (fun acc c => aset acc c.id (heldRec booking_id hold_expire c.ty now)) m

/-- Result of `batch-seat-reservation.lua`, mirroring the JSON shapes
`{success=false, message='INVALID_INPUT', ...}`,
`{success=false, message='SEATS_UNAVAILABLE', unavailable=[...]}` and
`{success=true, message='SUCCESS', reserved=N, booking_id, expires_at}`. -/
inductive BatchResult where
  | invalidInput (err : String)
  | seatsUnavailable (unavailable : List (String × String))
  | success (reserved : Nat) (booking_id : String) (expires_at : Int)
deriving DecidableEq, Repr

/-- `batch-seat-reservation.lua`.  Inputs beyond the two keys: `booking_id`,
`hold_expire` (ARGV[2]), and the parsed `seat_id:seat_type` pairs (the
service formats them as ``${seatId}:${seatType}``); `now` is the Redis
server time read by the script.  All-or-nothing: phase 1 classifies every
requested seat; if any is unavailable the script returns the full
`unavailable` list without mutating; otherwise phase 2 writes every seat and
decrements the counter by the number of `was_available` entries. -/
def batchReserve (st : ShowState) (booking_id : String) (hold_expire : Int)
    (now : Int) (seats : List (String × String)) : ShowState × BatchResult :=
  if booking_id = "" then (st, .invalidInput "booking_id is required")
  else if hold_expire ≤ 0 then (st, .invalidInput "hold_expire must be positive")
  else if seats.length = 0 then (st, .invalidInput "seat_count must be positive")
  else
    let unavailable := seats.filterMap (fun s =>
      match classifySeat st.seats now s with
      | .error e => some e
      | .ok _ => none)
    if unavailable.length > 0 then (st, .seatsUnavailable unavailable)
    else
      let checks := seats.filterMap (fun s => (classifySeat st.seats now s).toOption)
      let reserved := checks.length
      let available_decrement := (checks.filter (fun c => c.was_available)).length
      (⟨batchWrite booking_id hold_expire now st.seats checks,
        st.available - available_decrement⟩,
       .success reserved booking_id hold_expire)

/-- Outcome of `confirm-seats.lua` / `release-seats.lua`: either the
`INVALID_INPUT` early return, or the per-seat loop's `(count, failed)`
accumulators (`success = failed.isEmpty`, message `SUCCESS` or
`PARTIAL_SUCCESS`). -/
inductive LoopResult where
  | invalidInput (err : String)
  | done (count : Nat) (failed : List (String × String))
deriving DecidableEq, Repr

/-- The record `confirm-seats.lua` writes on success: the held record with
`status='booked'`, `held_until` removed, `confirmed_at=now` (other fields of
the decoded JSON are kept as-is). -/
def bookedRec (r : SeatRec) (now : Int) : SeatRec :=
  { r with status := "booked", held_until := none, confirmed_at := some now }

/-- The per-seat loop of `confirm-seats.lua`: confirm only if the seat
exists, `status='held'`, `booking_id` matches, and the hold has not expired
(the script fails the seat only when `held_until < now`). -/
def confirmGo (booking_id : String) (now : Int) :
    List String → SeatMap → Nat → List (String × String) →
      SeatMap × Nat × List (String × String)
  | [], m, confirmed, failed => (m, confirmed, failed)
  | sid :: rest, m, confirmed, failed =>
    match alookup m sid with
    | none => confirmGo booking_id now rest m confirmed (failed ++ [(sid, "NOT_FOUND")])
    | some r =>
      if r.status ≠ "held" then
        confirmGo booking_id now rest m confirmed (failed ++ [(sid, "NOT_HELD")])
      else if r.booking_id ≠ some booking_id then
        confirmGo booking_id now rest m confirmed (failed ++ [(sid, "WRONG_BOOKING")])
      else if r.held_until.getD 0 < now then
        confirmGo booking_id now rest m confirmed (failed ++ [(sid, "HOLD_EXPIRED")])
      else
        confirmGo booking_id now rest (aset m sid (bookedRec r now)) (confirmed + 1) failed

/-- `confirm-seats.lua` (second script in `release-seats.lua`'s source file):
converts held seats of this booking to `booked`.  The counter key is not
among its KEYS and is never touched. -/
def confirmSeats (m : SeatMap) (booking_id : String) (now : Int)
    (seatIds : List String) : SeatMap × LoopResult :=
  if booking_id = "" then (m, .invalidInput "booking_id is required")
  else if seatIds.length = 0 then (m, .invalidInput "at least one seat_id is required")
  else
    let (m', confirmed, failed) := confirmGo booking_id now seatIds m 0 []
    (m', .done confirmed failed)

/-- The record `release-seats.lua` writes: `{status='available', seat_type,
released_at, previous_booking}` — in particular no `booking_id` field. -/
def releasedRec (ty : String) (now : Int) (booking_id : String) : SeatRec :=
  { status := "available", seat_type := ty, released_at := some now,
    previous_booking := some booking_id }

/-- The per-seat loop of `release-seats.lua`: release any seat whose
`booking_id` matches, regardless of its current status (held or booked). -/
def releaseGo (booking_id : String) (now : Int) :
    List String → SeatMap → Nat → List (String × String) →
      SeatMap × Nat × List (String × String)
  | [], m, released, failed => (m, released, failed)
  | sid :: rest, m, released, failed =>
    match alookup m sid with
    | none => releaseGo booking_id now rest m released (failed ++ [(sid, "NOT_FOUND")])
    | some r =>
      if r.booking_id ≠ some booking_id then
        releaseGo booking_id now rest m released (failed ++ [(sid, "WRONG_BOOKING")])
      else
        releaseGo booking_id now rest (aset m sid (releasedRec r.seat_type now booking_id))
          (released + 1) failed

/-- `release-seats.lua`: releases matching seats back to `available` and
increments the counter by the number actually released. -/
def releaseSeats (st : ShowState) (booking_id : String) (now : Int)
    (seatIds : List String) : ShowState × LoopResult :=
  if booking_id = "" then (st, .invalidInput "booking_id is required")
  else if seatIds.length = 0 then (st, .invalidInput "at least one seat_id is required")
  else
    let (m', released, failed) := releaseGo booking_id now seatIds st.seats 0 []
    (⟨m', st.available + released⟩, .done released failed)

/-- The expiry test shared by `cleanup-expired-holds.lua` and
`get-seats-status.lua`: a held seat whose `held_until < now`
(`tonumber(...) or 0`). -/
def expiredHeld (r : SeatRec) (now : Int) : Bool :=
  decide (r.status = "held") && decide (r.held_until.getD 0 < now)

/-- The record `cleanup-expired-holds.lua` writes for an expired hold
(keeps `previous_booking = status_data.booking_id`). -/
def cleanupRec (r : SeatRec) (now : Int) : SeatRec :=
  { status := "available", seat_type := r.seat_type, released_at := some now,
    released_reason := some ("HOLD_EXPIRED"), previous_booking := r.booking_id }

/-- `cleanup-expired-holds.lua`: `HGETALL`, reset every expired held seat to
`available`, increment the counter by the number released.  The hash fields
returned by `HGETALL` are pairwise distinct, so the per-field `HSET` loop is
a pointwise map over the hash. -/
def cleanupExpiredHolds (st : ShowState) (now : Int) : ShowState × Nat :=
  let released := (st.seats.filter (fun p => expiredHeld p.2 now)).length
  (⟨st.seats.map (fun p => if expiredHeld p.2 now then (p.1, cleanupRec p.2 now) else p),
    st.available + released⟩, released)

/-- The record `get-seats-status.lua` writes when it lazily reaps an expired
hold (unlike the cleanup script it stores no `previous_booking`). -/
def statusCleanRec (r : SeatRec) (now : Int) : SeatRec :=
  { status := "available", seat_type := r.seat_type, released_at := some now,
    released_reason := some ("HOLD_EXPIRED") }

/-- The specific-seats loop of `get-seats-status.lua`: `HGET` each requested
id and reap it if expired (`HSET` + `INCR`). -/
def statusGo (now : Int) : List String → SeatMap → Nat → SeatMap × Nat
  | [], m, cleaned => (m, cleaned)
  | sid :: rest, m, cleaned =>
    match alookup m sid with
    | none => statusGo now rest m cleaned
    | some r =>
      if expiredHeld r now then
        statusGo now rest (aset m sid (statusCleanRec r now)) (cleaned + 1)
      else statusGo now rest m cleaned

/-- The state effect of `get-seats-status.lua` (the read-only echo of the
seat records, `remaining_seconds`, `available_count` and `total_seats` is
pure output and not part of the state): with specific seat ids it reaps the
expired ones it reads; with no ids it sweeps the whole hash like the cleanup
script but writes `statusCleanRec`.  Returns `expired_cleaned`. -/
def getSeatsStatus (st : ShowState) (now : Int) (seatIds : List String) :
    ShowState × Nat :=
  if seatIds.length > 0 then
    let (m', cleaned) := statusGo now seatIds st.seats 0
    (⟨m', st.available + cleaned⟩, cleaned)
  else
    let cleaned := (st.seats.filter (fun p => expiredHeld p.2 now)).length
    (⟨st.seats.map (fun p => if expiredHeld p.2 now then (p.1, statusCleanRec p.2 now) else p),
      st.available + cleaned⟩, cleaned)

/-- The per-seat loop of the inline extend-hold script in
`seat-reservation.service.ts`: for each seat held by this booking whose
hold is still live (`held_until > now`, with `tonumber(...) or now`), add
`additional` seconds to `held_until`. -/
def extendGo (booking_id : String) (additional now : Int) :
    List String → SeatMap → Nat → SeatMap × Nat
  | [], m, extended => (m, extended)
  | sid :: rest, m, extended =>
    match alookup m sid with
    | none => extendGo booking_id additional now rest m extended
    | some r =>
      if r.booking_id = some booking_id ∧ r.status = "held" then
        if r.held_until.getD now > now then
          extendGo booking_id additional now rest
            (aset m sid { r with held_until := some (r.held_until.getD now + additional) })
            (extended + 1)
        else extendGo booking_id additional now rest m extended
      else extendGo booking_id additional now rest m extended

/-- The inline extend-hold script (`extendHold` in
`seat-reservation.service.ts`): returns the number of extended seats; the
counter key is not among its KEYS and is never touched. -/
def extendHold (m : SeatMap) (booking_id : String) (additional now : Int)
    (seatIds : List String) : SeatMap × Nat :=
  extendGo booking_id additional now seatIds m 0

/-! ### Booking Orchestrator (`booking.service.ts`) and
Payment Webhook Reconciler (`payment.service.ts`) -/

/-- `success = (#failed == 0)` of the confirm/release scripts' JSON result,
as consumed by `result.success` in the TypeScript services
(`INVALID_INPUT` also has `success = false`). -/
def loopSuccess : LoopResult → Bool
  | .done _ [] => true
  | _ => false

/-- One seat entry of a durable booking (`{seat_id, seat_type, price}`). -/
structure BookingSeat where
  seat_id : String
  seat_type : String
  price : Int
deriving DecidableEq, Repr

/-- The durable booking record (`booking.schema.ts`), restricted to the
fields the modelled operations read or write.  `created_at` stands for the
mongoose `createdAt` timestamp. -/
structure Booking where
  id : String
  booking_code : String
  user_id : String
  showtime_id : String
  seats : List BookingSeat
  total_amount : Int
  discount_amount : Int
  final_amount : Int
  currency : String
  status : String
  held_at : Int
  hold_expires_at : Int
  idempotency_key : String
  created_at : Int
  confirmed_at : Option Int := none
  cancelled_at : Option Int := none
  cancellation_reason : Option String := none
deriving DecidableEq, Repr

/-- `HoldSeatsResponse` (`booking-response.interface.ts`), as built by
`buildHoldSeatsResponse`. -/
structure HoldSeatsResponse where
  booking_id : String
  booking_code : String
  showtime_id : String
  seats : List String
  total_amount : Int
  final_amount : Int
  currency : String
  status : String
  held_at : Int
  hold_expires_at : Int
  created_at : Int
deriving DecidableEq, Repr

/-- Showtime metadata read by the orchestrator: status, start time, the
authoritative `seat_id → seat_type` map, and the per-type price table. -/
structure Showtime where
  status : String
  start_time : Int
  seats : List (String × String)
  price_standard : Int
  price_vip : Int
  price_couple : Int
deriving DecidableEq, Repr

/-- The durable payment record (`payment.schema.ts`), restricted to the
fields `handleWebhook` reads or writes. -/
structure Payment where
  id : String
  booking_id : String
  user_id : String
  status : String
  gateway_transaction_id : Option String := none
  paid_at : Option Int := none
  version : Int := 0
deriving DecidableEq, Repr

/-- The whole mutable state the modelled operations touch: the plain Redis
cache `idempotency:hold:{key}` used by `holdSeats`, the durable `bookings`
and `payments` collections, the showtime metadata, and the per-showtime
engine state (`showtime:{id}:seats` / `showtime:{id}:available`). -/
structure Sys where
  holdCache : List (String × HoldSeatsResponse)
  bookings : List Booking
  showtimes : List (String × Showtime)
  engine : List (String × ShowState)
  payments : List Payment
deriving DecidableEq, Repr

/-- The engine keys of one showtime; missing keys behave as an empty hash
and a zero counter, as in Redis. -/
def engineFor (sys : Sys) (showtimeId : String) : ShowState :=
  (alookup sys.engine showtimeId).getD ⟨[], 0⟩

/-- `getSeatPrice` in `booking.service.ts` (couple/vip special-cased,
everything else priced as standard). -/
def getSeatPrice (show_ : Showtime) (seatType : String) : Int :=
  if seatType = "vip" then show_.price_vip
  else if seatType = "couple" then show_.price_couple
  else show_.price_standard

/-- One element of `prepareSeatInfos`' result. -/
structure SeatInfoPriced where
  seatId : String
  seatType : String
  price : Int
deriving DecidableEq, Repr

/-- `prepareSeatInfos` in `booking.service.ts`: resolve each requested seat
id against the showtime's seat map (400 `INVALID_SEAT` when unknown); an
empty stored type falls back to `standard`
(`seatInfo.seat_type || SeatType.STANDARD`). -/
def prepareSeatInfos (show_ : Showtime) : List String →
    Except (Nat × String) (List SeatInfoPriced)
  | [] => .ok []
  | sid :: rest =>
    match alookup show_.seats sid with
    | none => .error (400, "INVALID_SEAT")
    | some ty0 =>
      let ty := if ty0 = "" then "standard" else ty0
      match prepareSeatInfos show_ rest with
      | .error e => .error e
      | .ok infos => .ok (⟨sid, ty, getSeatPrice show_ ty⟩ :: infos)

/-- `calculateTotalAmount`: sum of the resolved prices. -/
def calculateTotalAmount (infos : List SeatInfoPriced) : Int :=
  (infos.map (fun i => i.price)).foldl (fun a b => a + b) 0

/-- The pending booking document `holdSeats` persists after a successful
reservation (step 5 of `booking.service.ts`): status `pending`,
`held_at = now`, `hold_expires_at = now + 600 s`, amounts from the resolved
prices, discount 0. -/
def mkPendingBooking (stid : String) (infos : List SeatInfoPriced)
    (u k bId bc : String) (now : Int) : Booking :=
  { id := bId, booking_code := bc, user_id := u, showtime_id := stid,
    seats := infos.map (fun i => ⟨i.seatId, i.seatType, i.price⟩),
    total_amount := calculateTotalAmount infos, discount_amount := 0,
    final_amount := calculateTotalAmount infos, currency := "VND",
    status := "pending", held_at := now, hold_expires_at := now + 600,
    idempotency_key := k, created_at := now }

/-- `buildHoldSeatsResponse` in `booking.service.ts`. -/
def buildHoldSeatsResponse (b : Booking) : HoldSeatsResponse :=
  { booking_id := b.id, booking_code := b.booking_code,
    showtime_id := b.showtime_id, seats := b.seats.map (fun s => s.seat_id),
    total_amount := b.total_amount, final_amount := b.final_amount,
    currency := b.currency, status := b.status, held_at := b.held_at,
    hold_expires_at := b.hold_expires_at, created_at := b.created_at }

/-- `holdSeats` in `booking.service.ts`.  Nondeterministic inputs of the
real handler are explicit parameters: the pre-minted Mongo `ObjectId`
`bookingId`, the random `bookingCode`, the current time `now` (the service's
`Date.now()` and the Redis script clock, taken equal here), and `persistOk`,
the outcome of the `bookingModel.create` call.  Flow: (1) plain Redis cache
lookup keyed only by the idempotency key; (2) durable lookup by
`idempotency_key`; (3) showtime validation; (4) seat resolution; (5)
`batch-seat-reservation.lua` with `hold_expire = now + 600`; (6) persist or
compensate with `release-seats.lua` and fail 409 `BOOKING_FAILED`.  On the
seats-unavailable path the script made no write, so the engine map is
returned untouched (no spurious key creation). -/
def holdSeats (sys : Sys) (showtime_id : String) (dtoSeats : List String)
    (userId idempotencyKey : String) (bookingId bookingCode : String)
    (now : Int) (persistOk : Bool) :
    Sys × Except (Nat × String) HoldSeatsResponse :=
  match alookup sys.holdCache idempotencyKey with
  | some cached => (sys, .ok cached)
  | none =>
    match sys.bookings.find? (fun b => decide (b.idempotency_key = idempotencyKey)) with
    | some existing => (sys, .ok (buildHoldSeatsResponse existing))
    | none =>
      match alookup sys.showtimes showtime_id with
      | none => (sys, .error (404, "SHOWTIME_NOT_FOUND"))
      | some show_ =>
        if show_.status ≠ "scheduled" then (sys, .error (400, "SHOWTIME_NOT_AVAILABLE"))
        else if show_.start_time ≤ now then (sys, .error (400, "SHOWTIME_ALREADY_STARTED"))
        else
          match prepareSeatInfos show_ dtoSeats with
          | .error e => (sys, .error e)
          | .ok seatInfos =>
            let (engineSt, res) := batchReserve (engineFor sys showtime_id) bookingId
              (now + 600) now (seatInfos.map (fun i => (i.seatId, i.seatType)))
            match res with
            | .success _ _ _ =>
              if persistOk then
                let booking : Booking :=
                  mkPendingBooking showtime_id seatInfos userId idempotencyKey
                    bookingId bookingCode now
                let response := buildHoldSeatsResponse booking
                ({ sys with
                    engine := aset sys.engine showtime_id engineSt,
                    bookings := sys.bookings ++ [booking],
                    holdCache := aset sys.holdCache idempotencyKey response },
                 .ok response)
              else
                let (engineSt2, _) := releaseSeats engineSt bookingId now dtoSeats
                ({ sys with engine := aset sys.engine showtime_id engineSt2 },
                 .error (409, "BOOKING_FAILED"))
            | _ => (sys, .error (409, "SEATS_NOT_AVAILABLE"))

/-- Replace the booking with the given id (the mongoose `booking.save()` on
a fetched document). -/
def updateBookingById (bs : List Booking) (id : String) (f : Booking → Booking) :
    List Booking :=
  bs.map (fun b => if b.id = id then f b else b)

/-- `CancelBookingResponse`. -/
structure CancelBookingResponse where
  booking_id : String
  booking_code : String
  status : String
  cancelled_at : Int
  seats_released : List String
deriving DecidableEq, Repr

/-- `cancelBooking` in `booking.service.ts`: owner-only, pending-only;
releases the booking's seats via `release-seats.lua`, then marks the
booking cancelled. -/
def cancelBooking (sys : Sys) (bookingId userId : String) (reason : Option String)
    (now : Int) : Sys × Except (Nat × String) CancelBookingResponse :=
  match sys.bookings.find? (fun b => decide (b.id = bookingId)) with
  | none => (sys, .error (404, "BOOKING_NOT_FOUND"))
  | some b =>
    if b.user_id ≠ userId then (sys, .error (403, "BOOKING_NOT_OWNED"))
    else if b.status ≠ "pending" then (sys, .error (400, "BOOKING_CANNOT_BE_CANCELLED"))
    else
      let seatIds := b.seats.map (fun s => s.seat_id)
      let (engineSt, _) := releaseSeats (engineFor sys b.showtime_id) bookingId now seatIds
      let sys2 :=
        { sys with
            engine := aset sys.engine b.showtime_id engineSt,
            bookings := updateBookingById sys.bookings bookingId (fun c =>
              { c with status := "cancelled", cancelled_at := some now,
                       cancellation_reason := some (reason.getD ("Cancelled by user")) }) }
      (sys2, .ok { booking_id := b.id, booking_code := b.booking_code,
                   status := "cancelled", cancelled_at := now,
                   seats_released := seatIds })

/-- `confirmSeatsAfterPayment` in `booking.service.ts`: load the booking,
run `confirm-seats.lua` on its seats, and on full success mark the booking
confirmed.  Returns the service's boolean. -/
def confirmSeatsAfterPayment (sys : Sys) (bookingId : String) (now : Int) :
    Sys × Bool :=
  match sys.bookings.find? (fun b => decide (b.id = bookingId)) with
  | none => (sys, false)
  | some b =>
    let st := engineFor sys b.showtime_id
    let (m', res) := confirmSeats st.seats bookingId now (b.seats.map (fun s => s.seat_id))
    let sys1 := { sys with engine := aset sys.engine b.showtime_id ⟨m', st.available⟩ }
    if loopSuccess res then
      ({ sys1 with bookings := updateBookingById sys1.bookings bookingId (fun c =>
          { c with status := "confirmed", confirmed_at := some now }) }, true)
    else (sys1, false)

/-- `releaseSeatsAfterPaymentFailure` in `booking.service.ts`: load the
booking, run `release-seats.lua`, and on full success mark the booking
cancelled with reason "Payment failed". -/
def releaseSeatsAfterPaymentFailure (sys : Sys) (bookingId : String) (now : Int) :
    Sys × Bool :=
  match sys.bookings.find? (fun b => decide (b.id = bookingId)) with
  | none => (sys, false)
  | some b =>
    let (st', res) := releaseSeats (engineFor sys b.showtime_id) bookingId now
      (b.seats.map (fun s => s.seat_id))
    let sys1 := { sys with engine := aset sys.engine b.showtime_id st' }
    if loopSuccess res then
      ({ sys1 with bookings := updateBookingById sys1.bookings bookingId (fun c =>
          { c with status := "cancelled", cancelled_at := some now,
                   cancellation_reason := some ("Payment failed") }) }, true)
    else (sys1, false)

/-- Webhook payload (`WebhookPayload` in `payment.service.ts`); `paid_at`
optional as in the gateway callback. -/
structure WebhookPayload where
  transaction_id : String
  status : String
  amount : Int
  paid_at : Option Int := none
deriving DecidableEq, Repr

/-- Mongo `updateOne`: update the first document matching the filter;
returns the new list and whether a document was modified (every modelled
update contains `$inc: {version: 1}`, so a matched document is always
modified). -/
def updateFirstWhere {α : Type _} (p : α → Bool) (f : α → α) :
    List α → List α × Bool
  | [] => ([], false)
  | x :: rest =>
    if p x then (f x :: rest, true)
    else
      let (rest', modified) := updateFirstWhere p f rest
      (x :: rest', modified)

/-- The valid webhook providers. -/
def validProviders : List String := ["momo", "vnpay", "zalopay", "card"]

/-- `handleWebhook` in `payment.service.ts`.  Looks up the payment by
`gateway_transaction_id`; replays after completion return success with no
mutation; a `failed` payload conditionally marks the payment failed and, if
a document was modified, releases the seats; a `success` payload performs
the optimistic-locked transition to `completed` (guard
`status ≠ 'completed'`) and, only when a document was modified, confirms
the seats.  (The `metadata` echo of the payload is not modelled.) -/
def handleWebhook (sys : Sys) (provider : String) (payload : WebhookPayload)
    (now : Int) : Sys × Except (Nat × String) (Bool × String) :=
  if ¬ (provider ∈ validProviders) then
    (sys, .error (400, "Invalid payment provider"))
  else
    match sys.payments.find?
        (fun p => decide (p.gateway_transaction_id = some payload.transaction_id)) with
    | none => (sys, .error (404, "Payment not found for transaction"))
    | some payment =>
      if payment.status = "completed" then
        (sys, .ok (true, "Payment already processed"))
      else if payload.status = "failed" then
        let (payments', modified) := updateFirstWhere
          (fun p => decide (p.id = payment.id) && decide (p.status ≠ "completed"))
          (fun p => { p with status := "failed", version := p.version + 1 })
          sys.payments
        let sys1 := { sys with payments := payments' }
        if modified then
          ((releaseSeatsAfterPaymentFailure sys1 payment.booking_id now).1,
           .ok (true, "Payment marked as failed"))
        else (sys1, .ok (true, "Payment marked as failed"))
      else if payload.status = "success" then
        let (payments', modified) := updateFirstWhere
          (fun p => decide (p.gateway_transaction_id = some payload.transaction_id) &&
            decide (p.status ≠ "completed"))
          (fun p =>
            { p with status := "completed",
                     paid_at := some (payload.paid_at.getD now),
                     version := p.version + 1 })
          sys.payments
        let sys1 := { sys with payments := payments' }
        if ¬ modified then (sys1, .ok (true, "Payment already processed"))
        else
          ((confirmSeatsAfterPayment sys1 payment.booking_id now).1,
           .ok (true, "Payment completed successfully"))
      else (sys, .ok (true, "Webhook processed"))

/-- One webhook delivery: provider, payload, and the wall-clock time of
processing. -/
structure Delivery where
  provider : String
  payload : WebhookPayload
  at_time : Int
deriving DecidableEq, Repr

/-- Whether the payment `handleWebhook` would resolve for transaction `t`
is currently `completed`. -/
def txnCompleted (sys : Sys) (t : String) : Bool :=
  match sys.payments.find? (fun p => decide (p.gateway_transaction_id = some t)) with
  | some p => decide (p.status = "completed")
  | none => false

/-- Sequential processing of a list of webhook deliveries. -/
def processDeliveries (sys : Sys) : List Delivery → Sys
  | [] => sys
  | d :: rest =>
    processDeliveries (handleWebhook sys d.provider d.payload d.at_time).1 rest

/-- How many deliveries of the sequence perform the transition of
transaction `t`'s payment to `completed`. -/
def countCompletions (sys : Sys) (t : String) : List Delivery → Nat
  | [] => 0
  | d :: rest =>
    (if ¬ txnCompleted sys t ∧
        txnCompleted (handleWebhook sys d.provider d.payload d.at_time).1 t
      then 1 else 0) +
      countCompletions (handleWebhook sys d.provider d.payload d.at_time).1 t rest

/-! ### Idempotency layer (`idempotency.service.ts`) -/

/-- A JSON value, the shape of request bodies fed to `hashRequestBody`
(JSON numbers are modelled as integers; the number format plays no role in
the key-ordering property). -/
inductive JVal where
  | jnull
  | jbool (b : Bool)
  | jnum (n : Int)
  | jstr (s : String)
  | jarr (elems : List JVal)
  | jobj (fields : List (String × JVal))

/-- Comparison used to sort object fields: `Object.keys(obj).sort()`
compares the key strings. -/
def keyLE (p q : String × JVal) : Prop := p.1 ≤ q.1

instance : DecidableRel keyLE := fun p q => by
  unfold keyLE; infer_instance

instance : IsTotal (String × JVal) keyLE :=
  ⟨fun p q => le_total p.1 q.1⟩

instance : IsTrans (String × JVal) keyLE :=
  ⟨fun _ _ _ h1 h2 => le_trans h1 h2⟩

/-- Strict version of `keyLE`; on lists with pairwise-distinct keys a
`keyLE`-sorted list is `keyLT`-sorted, and `keyLT` is antisymmetric. -/
def keyLT (p q : String × JVal) : Prop := p.1 < q.1

instance : IsAntisymm (String × JVal) keyLT :=
  ⟨fun _ _ h1 h2 => absurd (lt_trans h1 h2) (lt_irrefl _)⟩

mutual

/-- `sortObjectKeys` in `idempotency.service.ts`: recursively sort mapping
fields by key; arrays keep their order and are canonicalized elementwise;
primitives are returned as-is.  JavaScript object keys are pairwise
distinct, so any comparison sort returns the unique key-sorted permutation;
insertion sort computes it. -/
def sortObjectKeys : JVal → JVal
  | .jnull => .jnull
  | .jbool b => .jbool b
  | .jnum n => .jnum n
  | .jstr s => .jstr s
  | .jarr es => .jarr (sortJList es)
  | .jobj fs => .jobj (List.insertionSort keyLE (sortJFields fs))

/-- Elementwise canonicalization of an array (`obj.map(item =>
this.sortObjectKeys(item))`). -/
def sortJList : List JVal → List JVal
  | [] => []
  | v :: vs => sortObjectKeys v :: sortJList vs

/-- Canonicalization of each field value of an object before the keys are
sorted. -/
def sortJFields : List (String × JVal) → List (String × JVal)
  | [] => []
  | p :: ps => (p.1, sortObjectKeys p.2) :: sortJFields ps

end

mutual

/-- `JSON.stringify` over the canonicalized value (string escaping elided:
it is a fixed injective-irrelevant post-processing of the already-equal
canonical forms). -/
def stringifyJ : JVal → String
  | .jnull => "null"
  | .jbool b => cond b ("true") ("false")
  | .jnum n => toString n
  | .jstr s => "\"" ++ s ++ "\""
  | .jarr es => "[" ++ stringifyJList es ++ "]"
  | .jobj fs => "\x7b" ++ stringifyJFields fs ++ "\x7d"

def stringifyJList : List JVal → String
  | [] => ""
  | [v] => stringifyJ v
  | v :: vs => stringifyJ v ++ "," ++ stringifyJList vs

def stringifyJFields : List (String × JVal) → String
  | [] => ""
  | [p] => "\"" ++ p.1 ++ "\":" ++ stringifyJ p.2
  | p :: ps => "\"" ++ p.1 ++ "\":" ++ stringifyJ p.2 ++ "," ++ stringifyJFields ps

end

/-- `hashRequestBody` in `idempotency.service.ts`: SHA-256 of the
canonical serialization.  SHA-256 is a fixed function of the serialized
string; it is abstracted as the parameter `sha`, so every proved equality
of hashes holds for the real digest. -/
def hashRequestBody (sha : String → String) (body : JVal) : String :=
  sha (stringifyJ (sortObjectKeys body))

mutual

/-- The second value arises from the first by recursively permuting the
fields of its mappings; sequences keep their order (their elements are
permuted recursively in place). -/
inductive KeyPerm : JVal → JVal → Prop
  | jnull : KeyPerm .jnull .jnull
  | jbool (b : Bool) : KeyPerm (.jbool b) (.jbool b)
  | jnum (n : Int) : KeyPerm (.jnum n) (.jnum n)
  | jstr (s : String) : KeyPerm (.jstr s) (.jstr s)
  | jarr {xs ys : List JVal} : KeyPermList xs ys →
      KeyPerm (.jarr xs) (.jarr ys)
  | jobj {fs gs hs : List (String × JVal)} : KeyPermFields fs gs →
      gs.Perm hs → KeyPerm (.jobj fs) (.jobj hs)

/-- Elementwise `KeyPerm` on sequences (order preserved). -/
inductive KeyPermList : List JVal → List JVal → Prop
  | nil : KeyPermList [] []
  | cons {x y : JVal} {xs ys : List JVal} : KeyPerm x y → KeyPermList xs ys →
      KeyPermList (x :: xs) (y :: ys)

/-- Fieldwise `KeyPerm` on mapping fields: same keys in the same order,
values recursively permuted. -/
inductive KeyPermFields : List (String × JVal) → List (String × JVal) → Prop
  | nil : KeyPermFields [] []
  | cons {k : String} {v w : JVal} {ps qs : List (String × JVal)} :
      KeyPerm v w → KeyPermFields ps qs →
      KeyPermFields ((k, v) :: ps) ((k, w) :: qs)

end

mutual

/-- The JavaScript well-formedness of a request body: the keys of every
mapping are pairwise distinct (a JS object cannot carry duplicate keys). -/
def WFKeys : JVal → Prop
  | .jarr es => WFKeysList es
  | .jobj fs => (fs.map Prod.fst).Nodup ∧ WFKeysFields fs
  | _ => True

def WFKeysList : List JVal → Prop
  | [] => True
  | v :: vs => WFKeys v ∧ WFKeysList vs

def WFKeysFields : List (String × JVal) → Prop
  | [] => True
  | p :: ps => WFKeys p.2 ∧ WFKeysFields ps

end

/-- The durable `IdempotencyKey` record (`idempotency-key.schema.ts`). -/
structure IdemRecord where
  key : String
  user_id : String
  request_path : String
  request_hash : String
  resource_type : String
  status : String
  expires_at : Int
  response_status : Option Nat := none
  response_body : Option JVal := none
  error_message : Option String := none

/-- Result of `checkIdempotencyKey` (`IdempotencyCheckResult`): a fresh
`processing` record was created, or a cached response is replayed. -/
inductive IdemCheck where
  | isNew
  | cachedResponse (status : Nat) (body : JVal)

/-- `checkIdempotencyKey` in `idempotency.service.ts`, the gatekeeper
`createPayment` invokes (with the body hash) before performing any other
work.  Errors carry the spec's taxonomy codes: the `BadRequestException`
thrown when the stored `request_hash` differs is 400
`KEY_REUSED_DIFFERENT_BODY`; the `ConflictException` for an in-flight key
is 409 `REQUEST_IN_FLIGHT`.  The duplicate-key retry (two concurrent
creates) does not arise in this sequential model. -/
def checkIdempotencyKey (store : List IdemRecord)
    (key userId requestPath requestHash resourceType : String) (now : Int) :
    List IdemRecord × Except (Nat × String) IdemCheck :=
  match store.find? (fun r => decide (r.key = key) && decide (r.user_id = userId)) with
  | none =>
    (store ++ [{ key := key, user_id := userId, request_path := requestPath,
                 request_hash := requestHash, resource_type := resourceType,
                 status := "processing", expires_at := now + 86400 }],
     .ok .isNew)
  | some r =>
    if r.request_hash ≠ requestHash then
      (store, .error (400, "KEY_REUSED_DIFFERENT_BODY"))
    else if r.status = "completed" then
      (store, .ok (.cachedResponse (r.response_status.getD 200)
        (r.response_body.getD (.jobj []))))
    else if r.status = "processing" then
      (store, .error (409, "REQUEST_IN_FLIGHT"))
    else if r.status = "failed" then
      (store, .ok (.cachedResponse (r.response_status.getD 500)
        (match r.response_body with
         | some b => b
         | none => .jobj [("message", .jstr (r.error_message.getD ("Request failed")))])))
    else (store, .ok .isNew)

/-! ### Derived predicates used to state the claims -/

/-- A requested seat is non-reservable for `batch-seat-reservation.lua`:
missing, booked, or held with an unexpired hold — by any booking, the
caller's own included (the script never compares `booking_id` in phase 1). -/
def nonReservable (m : SeatMap) (now : Int) (sid : String) : Bool :=
  match alookup m sid with
  | none => true
  | some r =>
    decide (r.status = "booked") ||
      (decide (r.status = "held") && decide (r.held_until.getD 0 > now))

/-- The reason `batch-seat-reservation.lua` reports for a non-reservable
seat. -/
def unavailReason (m : SeatMap) (now : Int) (sid : String) : String :=
  match alookup m sid with
  | none => "NOT_FOUND"
  | some r => if r.status = "booked" then "BOOKED" else "HELD"

/-- Whether a seat's status is `available` before a script runs. -/
def priorAvailable (m : SeatMap) (sid : String) : Bool :=
  match alookup m sid with
  | some r => decide (r.status = "available")
  | none => false

/-- The per-seat success condition of `confirm-seats.lua`: the seat exists,
is held by this booking, and its hold has not yet strictly expired
(the script rejects only `held_until < now`). -/
def confirmable (m : SeatMap) (bid : String) (now : Int) (sid : String) : Bool :=
  match alookup m sid with
  | some r =>
    decide (r.status = "held") && decide (r.booking_id = some bid) &&
      decide (now ≤ r.held_until.getD 0)
  | none => false

/-- The reason `confirm-seats.lua` reports for a seat that fails its
check. -/
def confirmFailReason (m : SeatMap) (bid : String) (now : Int) (sid : String) : String :=
  match alookup m sid with
  | none => "NOT_FOUND"
  | some r =>
    if r.status ≠ "held" then "NOT_HELD"
    else if r.booking_id ≠ some bid then "WRONG_BOOKING"
    else "HOLD_EXPIRED"

/-- Number of first occurrences of seat ids in a check list, relative to a
set of ids already written: duplicates beyond the first are not counted. -/
def firstOccCount : List Check → List String → Nat
  | [], _ => 0
  | c :: rest, written =>
    (if c.id ∈ written then 0 else 1) + firstOccCount rest (c.id :: written)

/-- The observable state of a seat in the sense of the spec's data model:
its status together with its seat type (audit fields aside). -/
def statusType (r : SeatRec) : String × String := (r.status, r.seat_type)

/-! ### Concrete fixtures used to evaluate the definitions -/

/-- An untouched available seat, as written by `initializeShowtime`. -/
def fxAvail : SeatRec := { status := "available", seat_type := "standard" }

/-- A seat held by booking `b1` until epoch second 100. -/
def fxHeldB1 : SeatRec :=
  { status := "held", seat_type := "standard", booking_id := some "b1",
    held_until := some 100 }

/-- A small scheduled showtime with two standard seats. -/
def fxShowtime : Showtime :=
  { status := "scheduled", start_time := 1000,
    seats := [("A1", "standard"), ("A2", "standard")],
    price_standard := 100, price_vip := 200, price_couple := 300 }

/-- A system with one initialized showtime of two available seats. -/
def fxSys : Sys :=
  { holdCache := [], bookings := [], showtimes := [("st1", fxShowtime)],
    engine := [("st1", ⟨[("A1", fxAvail), ("A2", fxAvail)], 2⟩)], payments := [] }

/-- A system whose only seat `A1` carries an expired hold of booking `old`
(held_until 10), with the counter consistently at 0. -/
def fxSysExpired : Sys :=
  { holdCache := [], bookings := [], showtimes := [("st1", fxShowtime)],
    engine := [("st1", ⟨[("A1",
      { status := "held", seat_type := "standard", booking_id := some "old",
        held_until := some 10 })], 0⟩)], payments := [] }

/-- A processing payment with gateway transaction `TXN1`. -/
def fxPayment : Payment :=
  { id := "p1", booking_id := "b1", user_id := "u1", status := "processing",
    gateway_transaction_id := some "TXN1" }

/-- A system holding only `fxPayment`. -/
def fxSysPay : Sys :=
  { holdCache := [], bookings := [], showtimes := [], engine := [],
    payments := [fxPayment] }

/-- `fxSysPay` after the payment completed. -/
def fxSysPayDone : Sys :=
  { holdCache := [], bookings := [], showtimes := [], engine := [],
    payments := [{ fxPayment with status := "completed" }] }

/-- A success webhook payload for `TXN1`. -/
def fxPayload : WebhookPayload :=
  { transaction_id := "TXN1", status := "success", amount := 100,
    paid_at := some 90 }

/-- A completed idempotency record for key `k1` of user `u1` whose stored
body hash is `h1`. -/
def fxIdemRec : IdemRecord :=
  { key := "k1", user_id := "u1", request_path := "/payments",
    request_hash := "h1", resource_type := "payment", status := "completed",
    expires_at := 86400 }

/-- The response the first hold request on `fxSys` (seats `["A1"]`, key
`k1`) produces and caches. -/
def fxResp : HoldSeatsResponse :=
  { booking_id := "B1", booking_code := "BC1", showtime_id := "st1",
    seats := ["A1"], total_amount := 100, final_amount := 100,
    currency := "VND", status := "pending", held_at := 50,
    hold_expires_at := 650, created_at := 50 }

/-- `fxSys` with `fxResp` already cached under key `k1`. -/
def fxSysCached : Sys := { fxSys with holdCache := [("k1", fxResp)] }

/-! ### Basic lemmas about the association-list store -/

theorem alookup_aset_self {β : Type _} (m : List (String × β)) (k : String) (v : β) :
    alookup (aset m k v) k = some v := by
  induction m with
  | nil => simp [aset, alookup]
  | cons p rest ih =>
    by_cases h : p.1 = k
    · simp [aset, alookup, h]
    · simp [aset, alookup, h, ih]

theorem alookup_aset_ne {β : Type _} (m : List (String × β)) {k' k : String} (v : β)
    (h : k' ≠ k) : alookup (aset m k' v) k = alookup m k := by
  induction m with
  | nil => simp [aset, alookup, h]
  | cons p rest ih =>
    by_cases hp : p.1 = k'
    · simp [aset, alookup, hp, h]
    · simp only [aset, if_neg hp]
      by_cases hk : p.1 = k
      · simp [alookup, hk]
      · simp [alookup, hk, ih]

theorem aset_map_fst_of_mem {β : Type _} {m : List (String × β)} {k : String} (v : β)
    (h : k ∈ m.map Prod.fst) : (aset m k v).map Prod.fst = m.map Prod.fst := by
  induction m with
  | nil => simp at h
  | cons p rest ih =>
    by_cases hp : p.1 = k
    · simp [aset, hp]
    · have h' : k ∈ rest.map Prod.fst := by
        rcases List.mem_map.mp h with ⟨q, hq, hqk⟩
        rcases List.mem_cons.mp hq with hq1 | hq2
        · exact absurd (hq1 ▸ hqk) hp
        · exact List.mem_map.mpr ⟨q, hq2, hqk⟩
      simp [aset, hp, ih h']

theorem countAvailable_aset (m : SeatMap) (k : String) (v : SeatRec) :
    countAvailable (aset m k v) + availBit (alookup m k) =
      countAvailable m + availBit (some v) := by
  induction m with
  | nil =>
    by_cases hv : v.status = "available" <;>
      simp [aset, alookup, countAvailable, availBit, List.filter, hv]
  | cons p rest ih =>
    by_cases hp : p.1 = k
    · by_cases hv : v.status = "available" <;>
        by_cases hp2 : p.2.status = "available" <;>
          simp [aset, alookup, countAvailable, availBit, hp, hv, hp2] <;> omega
    · by_cases hp2 : p.2.status = "available" <;>
        simp [aset, alookup, countAvailable, availBit, hp, hp2] at ih ⊢ <;> omega

theorem wellFormed_aset {m : SeatMap} {k : String} {v : SeatRec}
    (hv : wfRec v) (hm : wellFormed m) : wellFormed (aset m k v) := by
  induction m with
  | nil => intro p hp; simp [aset] at hp; simp [hp, hv]
  | cons q rest ih =>
    intro p hp
    by_cases hq : q.1 = k
    · simp [aset, hq] at hp
      rcases hp with hp | hp
      · simp [hp, hv]
      · exact hm p (List.mem_cons_of_mem _ hp)
    · simp [aset, hq] at hp
      rcases hp with hp | hp
      · exact hm p (by simp [hp])
      · exact ih (fun q hq2 => hm q (List.mem_cons_of_mem _ hq2)) p hp

theorem wellFormed_alookup {m : SeatMap} {k : String} {r : SeatRec}
    (hm : wellFormed m) (h : alookup m k = some r) : wfRec r := by
  induction m with
  | nil => simp [alookup] at h
  | cons p rest ih =>
    by_cases hp : p.1 = k
    · simp [alookup, hp] at h
      exact h ▸ hm p (by simp)
    · simp [alookup, hp] at h
      exact ih (fun q hq => hm q (List.mem_cons_of_mem _ hq)) h

/-! ### Lemmas about `batch-seat-reservation.lua` -/

theorem availBit_priorAvailable (m : SeatMap) (sid : String) :
    availBit (alookup m sid) = if priorAvailable m sid then 1 else 0 := by
  unfold availBit priorAvailable
  cases alookup m sid with
  | none => simp
  | some r => by_cases h : r.status = "available" <;> simp [h]

theorem classifySeat_ok_val {m : SeatMap} {now : Int} {s : String × String} {c : Check}
    (h : classifySeat m now s = .ok c) : c.id = s.1 ∧ c.ty = s.2 := by
  unfold classifySeat at h
  cases halk : alookup m s.1 with
  | none => simp [halk] at h
  | some r =>
    simp only [halk] at h
    by_cases hb : r.status = "booked"
    · simp [hb] at h
    · by_cases hh : r.status = "held"
      · by_cases he : r.held_until.getD 0 > now <;>
          simp [hb, hh, he] at h <;> simp [← h]
      · simp [hb, hh] at h
        simp [← h]

theorem classifySeat_error_val {m : SeatMap} {now : Int} {s : String × String}
    {e : String × String} (h : classifySeat m now s = .error e) :
    e = (s.1, unavailReason m now s.1) ∧ nonReservable m now s.1 = true := by
  unfold classifySeat at h
  unfold unavailReason nonReservable
  cases halk : alookup m s.1 with
  | none => simp [halk] at h ⊢; simp [← h]
  | some r =>
    simp only [halk] at h ⊢
    by_cases hb : r.status = "booked"
    · simp [hb] at h ⊢; simp [← h]
    · by_cases hh : r.status = "held"
      · by_cases he : r.held_until.getD 0 > now <;>
          simp [hb, hh, he] at h ⊢
        simp [← h]
      · simp [hb, hh] at h

theorem classifySeat_eq_ok {m : SeatMap} {now : Int} {s : String × String}
    (h : nonReservable m now s.1 = false) :
    ∃ r, alookup m s.1 = some r ∧
      classifySeat m now s = .ok ⟨s.1, s.2, !(decide (r.status = "held"))⟩ := by
  unfold nonReservable at h
  unfold classifySeat
  cases halk : alookup m s.1 with
  | none => simp [halk] at h
  | some r =>
    simp only [halk] at h ⊢
    refine ⟨r, rfl, ?_⟩
    by_cases hb : r.status = "booked"
    · simp [hb] at h
    · by_cases hh : r.status = "held"
      · simp [hb, hh] at h
        simp [hb, hh, h]
      · simp [hb, hh]

theorem classifySeat_ok_availBit {m : SeatMap} {now : Int} {s : String × String}
    {c : Check} (hwf : wellFormed m) (h : classifySeat m now s = .ok c) :
    availBit (alookup m s.1) = if c.was_available then 1 else 0 := by
  unfold classifySeat at h
  unfold availBit
  cases halk : alookup m s.1 with
  | none => simp [halk] at h
  | some r =>
    simp only [halk] at h ⊢
    have hr := wellFormed_alookup hwf halk
    by_cases hb : r.status = "booked"
    · simp [hb] at h
    · by_cases hh : r.status = "held"
      · by_cases he : r.held_until.getD 0 > now
        · simp [hb, hh, he] at h
        · simp [hb, hh, he] at h
          simp [← h, hh]
      · simp [hb, hh] at h
        have hav : r.status = "available" := by
          rcases hr.1 with h1 | h1 | h1 <;> simp_all
        simp [← h, hav]

theorem batch_checks_forall2 (m : SeatMap) (now : Int) :
    ∀ seats : List (String × String),
      (∀ s ∈ seats, nonReservable m now s.1 = false) →
      List.Forall₂ (fun s c => classifySeat m now s = .ok c)
        seats (seats.filterMap (fun s => (classifySeat m now s).toOption)) := by
  intro seats
  induction seats with
  | nil => intro _; simp
  | cons s rest ih =>
    intro hall
    obtain ⟨r, _, hok⟩ := classifySeat_eq_ok (hall s (by simp))
    simp only [List.filterMap_cons, hok, Except.toOption]
    exact List.Forall₂.cons hok (ih (fun s2 hs2 => hall s2 (List.mem_cons_of_mem _ hs2)))

theorem forall2_classify_ids {m : SeatMap} {now : Int}
    {seats : List (String × String)} {checks : List Check}
    (h : List.Forall₂ (fun s c => classifySeat m now s = .ok c) seats checks) :
    checks.map (fun c => c.id) = seats.map Prod.fst ∧ checks.length = seats.length := by
  induction h with
  | nil => simp
  | cons hsc _ ih =>
    refine ⟨?_, by simp [ih.2]⟩
    simp [(classifySeat_ok_val hsc).1, ih.1]

theorem forall2_filter_length {α β : Type _} (R : α → β → Prop) (p : α → Bool)
    (q : β → Bool) (hpq : ∀ a b, R a b → p a = q b) :
    ∀ {as : List α} {bs : List β}, List.Forall₂ R as bs →
      (as.filter p).length = (bs.filter q).length := by
  intro as bs h
  induction h with
  | nil => simp
  | @cons a b as2 bs2 hab htail ih =>
    have hq := hpq a b hab
    by_cases hp : p a
    · simp [List.filter_cons, ← hq, hp, ih]
    · simp [List.filter_cons, ← hq, hp, ih]

theorem batchWrite_alookup_not_mem (b : String) (e n : Int) :
    ∀ (checks : List Check) (m : SeatMap) (k : String),
      k ∉ checks.map (fun c => c.id) →
      alookup (batchWrite b e n m checks) k = alookup m k := by
  intro checks
  induction checks with
  | nil => intro m k _; rfl
  | cons c rest ih =>
    intro m k hk
    simp only [List.map_cons, List.mem_cons] at hk
    push_neg at hk
    show alookup (batchWrite b e n (aset m c.id (heldRec b e c.ty n)) rest) k = _
    rw [ih _ _ hk.2, alookup_aset_ne _ _ (fun hc => hk.1 hc.symm)]

theorem batchWrite_alookup_mem (b : String) (e n : Int) :
    ∀ (checks : List Check) (m : SeatMap) (k : String),
      k ∈ checks.map (fun c => c.id) →
      ∃ ty, alookup (batchWrite b e n m checks) k = some (heldRec b e ty n) := by
  intro checks
  induction checks with
  | nil => intro m k hk; simp at hk
  | cons c rest ih =>
    intro m k hk
    show ∃ ty, alookup (batchWrite b e n (aset m c.id (heldRec b e c.ty n)) rest) k = _
    by_cases hmem : k ∈ rest.map (fun c => c.id)
    · exact ih _ _ hmem
    · simp only [List.map_cons, List.mem_cons] at hk
      rcases hk with hk | hk
      · refine ⟨c.ty, ?_⟩
        rw [batchWrite_alookup_not_mem b e n rest _ _ hmem, hk, alookup_aset_self]
      · exact absurd hk hmem

theorem batchWrite_alookup_nodup (b : String) (e n : Int) :
    ∀ (checks : List Check) (m : SeatMap),
      (checks.map (fun c => c.id)).Nodup →
      ∀ c ∈ checks, alookup (batchWrite b e n m checks) c.id =
        some (heldRec b e c.ty n) := by
  intro checks
  induction checks with
  | nil => intro m _ c hc; simp at hc
  | cons c0 rest ih =>
    intro m hnd c hc
    simp only [List.map_cons, List.nodup_cons] at hnd
    rcases List.mem_cons.mp hc with hc | hc
    · subst hc
      show alookup (batchWrite b e n (aset m c.id (heldRec b e c.ty n)) rest) c.id = _
      rw [batchWrite_alookup_not_mem b e n rest _ _ hnd.1, alookup_aset_self]
    · exact ih _ hnd.2 c hc

theorem countAvailable_batchWrite (b : String) (e n : Int) :
    ∀ (checks : List Check) (m : SeatMap),
      (checks.map (fun c => c.id)).Nodup →
      (∀ c ∈ checks, availBit (alookup m c.id) = if c.was_available then 1 else 0) →
      countAvailable (batchWrite b e n m checks) +
        (checks.filter (fun c => c.was_available)).length = countAvailable m := by
  intro checks
  induction checks with
  | nil => intro m _ _; simp [batchWrite]
  | cons c rest ih =>
    intro m hnd hbits
    simp only [List.map_cons, List.nodup_cons] at hnd
    have hstep := countAvailable_aset m c.id (heldRec b e c.ty n)
    have hbit0 : availBit (some (heldRec b e c.ty n)) = 0 := by
      simp [availBit, heldRec]
    have hrest : ∀ c2 ∈ rest,
        availBit (alookup (aset m c.id (heldRec b e c.ty n)) c2.id) =
          if c2.was_available then 1 else 0 := by
      intro c2 hc2
      have hne : c.id ≠ c2.id := by
        intro hcontra
        exact hnd.1 (hcontra ▸ List.mem_map.mpr ⟨c2, hc2, rfl⟩)
      rw [alookup_aset_ne _ _ hne]
      exact hbits c2 (List.mem_cons_of_mem _ hc2)
    have hmain := ih (aset m c.id (heldRec b e c.ty n)) hnd.2 hrest
    have hc := hbits c (by simp)
    show countAvailable (batchWrite b e n (aset m c.id (heldRec b e c.ty n)) rest) +
      (List.filter (fun c => c.was_available) (c :: rest)).length = countAvailable m
    by_cases hwa : c.was_available <;>
      simp only [List.filter_cons, hwa, if_pos, if_neg, Bool.false_eq_true,
        not_false_eq_true, List.length_cons] <;> simp [hwa] at hc <;> omega

theorem batchWrite_ge (b : String) (e n : Int) :
    ∀ (checks : List Check) (m : SeatMap) (written : List String),
      (∀ k ∈ written, availBit (alookup m k) = 0) →
      countAvailable m ≤
        countAvailable (batchWrite b e n m checks) + firstOccCount checks written := by
  intro checks
  induction checks with
  | nil => intro m written _; simp [batchWrite, firstOccCount]
  | cons c rest ih =>
    intro m written hw
    have hstep := countAvailable_aset m c.id (heldRec b e c.ty n)
    have hbit0 : availBit (some (heldRec b e c.ty n)) = 0 := by
      simp [availBit, heldRec]
    have hw2 : ∀ k ∈ c.id :: written,
        availBit (alookup (aset m c.id (heldRec b e c.ty n)) k) = 0 := by
      intro k hk
      by_cases hkc : k = c.id
      · subst hkc; rw [alookup_aset_self]; exact hbit0
      · rw [alookup_aset_ne _ _ (fun hcontra => hkc hcontra.symm)]
        exact hw k (by rcases List.mem_cons.mp hk with h | h; exact absurd h hkc; exact h)
    have hmain := ih (aset m c.id (heldRec b e c.ty n)) (c.id :: written) hw2
    show countAvailable m ≤
      countAvailable (batchWrite b e n (aset m c.id (heldRec b e c.ty n)) rest) +
        firstOccCount (c :: rest) written
    unfold firstOccCount
    rw [hbit0] at hstep
    by_cases hcw : c.id ∈ written
    · have hz := hw c.id hcw
      simp only [hcw, if_pos]
      omega
    · have hbitle : availBit (alookup m c.id) ≤ 1 := by
        unfold availBit
        cases alookup m c.id with
        | none => exact Nat.zero_le 1
        | some r => by_cases h : r.status = "available" <;> simp [h]
      simp only [hcw, if_neg, not_false_eq_true]
      omega

theorem firstOccCount_le : ∀ (checks : List Check) (written : List String),
    firstOccCount checks written ≤ checks.length := by
  intro checks
  induction checks with
  | nil => intro _; simp [firstOccCount]
  | cons c rest ih =>
    intro written
    unfold firstOccCount
    have := ih (c.id :: written)
    by_cases hcw : c.id ∈ written <;> simp [hcw] <;> omega

theorem firstOccCount_lt : ∀ (checks : List Check) (written : List String),
    (¬ (checks.map (fun c => c.id)).Nodup ∨ ∃ c ∈ checks, c.id ∈ written) →
    firstOccCount checks written < checks.length := by
  intro checks
  induction checks with
  | nil => intro written h; simp at h
  | cons c rest ih =>
    intro written h
    unfold firstOccCount
    by_cases hcw : c.id ∈ written
    · have := firstOccCount_le rest (c.id :: written)
      simp only [hcw, if_pos]
      simp only [List.length_cons]
      omega
    · have hih : firstOccCount rest (c.id :: written) < rest.length := by
        apply ih
        rcases h with h | ⟨c2, hc2, hc2w⟩
        · simp only [List.map_cons, List.nodup_cons] at h
          push_neg at h
          by_cases hmem : c.id ∈ rest.map (fun c => c.id)
          · exact Or.inr (by
              obtain ⟨c3, hc3, hc3id⟩ := List.mem_map.mp hmem
              exact ⟨c3, hc3, by simp [hc3id]⟩)
          · exact Or.inl (h hmem)
        · rcases List.mem_cons.mp hc2 with hc2 | hc2
          · exact absurd (hc2 ▸ hc2w) hcw
          · exact Or.inr ⟨c2, hc2, List.mem_cons_of_mem _ hc2w⟩
      simp only [hcw, if_neg, not_false_eq_true, List.length_cons]
      omega

theorem classifySeat_ok_nonReservable {m : SeatMap} {now : Int}
    {s : String × String} {c : Check} (h : classifySeat m now s = .ok c) :
    nonReservable m now s.1 = false := by
  unfold classifySeat at h
  unfold nonReservable
  cases halk : alookup m s.1 with
  | none => simp [halk] at h
  | some r =>
    simp only [halk] at h ⊢
    by_cases hb : r.status = "booked"
    · simp [hb] at h
    · by_cases hh : r.status = "held"
      · by_cases he : r.held_until.getD 0 > now <;> simp [hb, hh, he] at h ⊢
      · simp [hb, hh]

theorem classifySeat_ok_priorAvailable {m : SeatMap} {now : Int}
    {s : String × String} {c : Check} (hwf : wellFormed m)
    (h : classifySeat m now s = .ok c) :
    priorAvailable m s.1 = c.was_available := by
  have h1 := classifySeat_ok_availBit hwf h
  rw [availBit_priorAvailable] at h1
  by_cases hp : priorAvailable m s.1 <;> by_cases hw : c.was_available
  · simp [hp, hw]
  · simp [hp, hw] at h1
  · simp [hp, hw] at h1
  · simp [hp, hw]

theorem batchReserve_success_spec (st : ShowState) (bid : String) (expire now : Int)
    (seats : List (String × String)) (hbid : bid ≠ "") (hexp : 0 < expire)
    (hne : seats ≠ [])
    (hall : ∀ s ∈ seats, nonReservable st.seats now s.1 = false) :
    ∃ checks,
      List.Forall₂ (fun s c => classifySeat st.seats now s = .ok c) seats checks ∧
      batchReserve st bid expire now seats =
        (⟨batchWrite bid expire now st.seats checks,
          st.available - ((checks.filter (fun c => c.was_available)).length : Int)⟩,
         .success seats.length bid expire) := by
  refine ⟨seats.filterMap (fun s => (classifySeat st.seats now s).toOption),
    batch_checks_forall2 st.seats now seats hall, ?_⟩
  have hun : (seats.filterMap (fun s =>
      match classifySeat st.seats now s with
      | .error e => some e
      | .ok _ => none)) = [] := by
    rw [List.filterMap_eq_nil]
    intro s hs
    obtain ⟨r, _, hok⟩ := classifySeat_eq_ok (hall s hs)
    simp [hok]
  have hlen := (forall2_classify_ids (batch_checks_forall2 st.seats now seats hall)).2
  unfold batchReserve
  rw [if_neg hbid, if_neg (not_le.mpr hexp),
    if_neg (by simpa using fun h => hne (List.length_eq_zero.mp h))]
  simp only [hun, List.length_nil, gt_iff_lt, lt_self_iff_false, if_neg, if_false,
    not_false_eq_true]
  rw [hlen]

theorem batchReserve_unavailable_spec (st : ShowState) (bid : String)
    (expire now : Int) (seats : List (String × String)) (hbid : bid ≠ "")
    (hexp : 0 < expire) (hne : seats ≠ [])
    (hsome : ∃ s ∈ seats, nonReservable st.seats now s.1 = true) :
    batchReserve st bid expire now seats =
      (st, .seatsUnavailable (seats.filterMap (fun s =>
        if nonReservable st.seats now s.1 then
          some (s.1, unavailReason st.seats now s.1) else none))) := by
  have hcongr : (seats.filterMap (fun s =>
      match classifySeat st.seats now s with
      | .error e => some e
      | .ok _ => none)) = seats.filterMap (fun s =>
        if nonReservable st.seats now s.1 then
          some (s.1, unavailReason st.seats now s.1) else none) := by
    apply List.filterMap_congr
    intro s _
    cases hcl : classifySeat st.seats now s with
    | error e =>
      obtain ⟨he, hnr⟩ := classifySeat_error_val hcl
      simp [hnr, he]
    | ok c => simp [classifySeat_ok_nonReservable hcl]
  have hpos : 0 < (seats.filterMap (fun s =>
      if nonReservable st.seats now s.1 then
        some (s.1, unavailReason st.seats now s.1) else none)).length := by
    obtain ⟨s, hs, hnr⟩ := hsome
    apply List.length_pos.mpr
    apply List.ne_nil_of_mem (a := (s.1, unavailReason st.seats now s.1))
    exact List.mem_filterMap.mpr ⟨s, hs, by simp [hnr]⟩
  unfold batchReserve
  rw [if_neg hbid, if_neg (not_le.mpr hexp),
    if_neg (by simpa using fun h => hne (List.length_eq_zero.mp h))]
  simp only [hcongr]
  rw [if_pos hpos]

/-! ### Counter preservation of the six engine scripts -/

theorem forall2_mem_right {α β : Type _} {R : α → β → Prop} :
    ∀ {as : List α} {bs : List β}, List.Forall₂ R as bs →
      ∀ b ∈ bs, ∃ a ∈ as, R a b := by
  intro as bs h
  induction h with
  | nil => intro b hb; simp at hb
  | @cons a b2 as2 bs2 hab _ ih =>
    intro b hb
    rcases List.mem_cons.mp hb with hb | hb
    · exact ⟨a, by simp, hb ▸ hab⟩
    · obtain ⟨a2, ha2, hr⟩ := ih b hb
      exact ⟨a2, List.mem_cons_of_mem _ ha2, hr⟩

theorem batchReserve_counter (st : ShowState) (bid : String) (expire now : Int)
    (seats : List (String × String)) (hwf : wellFormed st.seats)
    (hnd : (seats.map Prod.fst).Nodup) (hok : counterOk st) :
    counterOk (batchReserve st bid expire now seats).1 := by
  by_cases hbid : bid = ""
  · simpa [batchReserve, hbid] using hok
  by_cases hexp : expire ≤ 0
  · simpa [batchReserve, hbid, hexp] using hok
  by_cases hnil : seats = []
  · simpa [batchReserve, hbid, hexp, hnil] using hok
  by_cases hun : ∃ s ∈ seats, nonReservable st.seats now s.1 = true
  · rw [batchReserve_unavailable_spec st bid expire now seats hbid
      (not_le.mp hexp) hnil hun]
    exact hok
  · have hall : ∀ s ∈ seats, nonReservable st.seats now s.1 = false := by
      intro s hs
      cases h : nonReservable st.seats now s.1
      · rfl
      · exact absurd ⟨s, hs, h⟩ hun
    obtain ⟨checks, hf2, heq⟩ := batchReserve_success_spec st bid expire now seats
      hbid (not_le.mp hexp) hnil hall
    have hids := (forall2_classify_ids hf2).1
    have hbits : ∀ c ∈ checks, availBit (alookup st.seats c.id) =
        if c.was_available then 1 else 0 := by
      intro c hc
      obtain ⟨s, _, hok2⟩ := forall2_mem_right hf2 c hc
      have := classifySeat_ok_availBit hwf hok2
      rwa [(classifySeat_ok_val hok2).1]
    have hcount := countAvailable_batchWrite bid expire now checks st.seats
      (by rw [hids]; exact hnd) hbits
    rw [heq]
    unfold counterOk at hok ⊢
    simp only at hok ⊢
    omega

theorem confirmGo_count (bid : String) (now : Int) :
    ∀ (ids : List String) (m : SeatMap) (cnt : Nat) (f : List (String × String)),
      countAvailable (confirmGo bid now ids m cnt f).1 = countAvailable m := by
  intro ids
  induction ids with
  | nil => intro m cnt f; rfl
  | cons sid rest ih =>
    intro m cnt f
    unfold confirmGo
    cases halk : alookup m sid with
    | none => simp only [halk]; exact ih m cnt _
    | some r =>
      simp only [halk]
      by_cases h1 : r.status ≠ "held"
      · rw [if_pos h1]; exact ih m cnt _
      rw [if_neg h1]
      by_cases h2 : r.booking_id ≠ some bid
      · rw [if_pos h2]; exact ih m cnt _
      rw [if_neg h2]
      by_cases h3 : r.held_until.getD 0 < now
      · rw [if_pos h3]; exact ih m cnt _
      rw [if_neg h3]
      rw [ih _ _ _]
      have hstep := countAvailable_aset m sid (bookedRec r now)
      push_neg at h1
      have hb1 : availBit (some r) = 0 := by simp [availBit, h1]
      have hb2 : availBit (some (bookedRec r now)) = 0 := by
        simp [availBit, bookedRec]
      rw [halk] at hstep
      omega

theorem releaseGo_count (bid : String) (now : Int) :
    ∀ (ids : List String) (m : SeatMap) (rel : Nat) (f : List (String × String)),
      wellFormed m →
      countAvailable (releaseGo bid now ids m rel f).1 + rel =
        countAvailable m + (releaseGo bid now ids m rel f).2.1 := by
  intro ids
  induction ids with
  | nil => intro m rel f _; rfl
  | cons sid rest ih =>
    intro m rel f hwf
    unfold releaseGo
    cases halk : alookup m sid with
    | none => simp only [halk]; exact ih m rel _ hwf
    | some r =>
      simp only [halk]
      by_cases h1 : r.booking_id ≠ some bid
      · rw [if_pos h1]; exact ih m rel _ hwf
      · rw [if_neg h1]
        push_neg at h1
        have hwfr := wellFormed_alookup hwf halk
        have hb1 : availBit (some r) = 0 := by
          unfold availBit
          by_cases hav : r.status = "available"
          · exact absurd (hwfr.2 hav ▸ h1) (by simp)
          · simp [hav]
        have hb2 : availBit (some (releasedRec r.seat_type now bid)) = 1 := by
          simp [availBit, releasedRec]
        have hstep := countAvailable_aset m sid (releasedRec r.seat_type now bid)
        rw [halk] at hstep
        have hwf2 : wellFormed (aset m sid (releasedRec r.seat_type now bid)) :=
          wellFormed_aset (by simp [wfRec, releasedRec]) hwf
        have := ih (aset m sid (releasedRec r.seat_type now bid)) (rel + 1) f hwf2
        omega

theorem countAvailable_map_reap (now : Int) (g : SeatRec → SeatRec)
    (hg : ∀ r, (g r).status = "available") :
    ∀ m : SeatMap,
      countAvailable (m.map (fun p => if expiredHeld p.2 now then (p.1, g p.2) else p)) =
        countAvailable m + (m.filter (fun p => expiredHeld p.2 now)).length := by
  intro m
  induction m with
  | nil => rfl
  | cons p rest ih =>
    unfold countAvailable at ih ⊢
    simp only [List.map_cons]
    by_cases hx : expiredHeld p.2 now
    · rw [if_pos hx]
      have hheld : p.2.status = "held" := by
        unfold expiredHeld at hx
        exact of_decide_eq_true (Bool.and_elim_left hx)
      simp only [List.filter_cons]
      rw [if_pos (show decide ((p.1, g p.2).2.status = "available") = true by
            simp [hg p.2]),
        if_neg (show ¬ decide (p.2.status = "available") = true by simp [hheld]),
        if_pos hx]
      simp only [List.length_cons]
      omega
    · rw [if_neg hx]
      simp only [List.filter_cons]
      rw [if_neg (show ¬ expiredHeld p.2 now = true from hx)]
      by_cases hav : decide (p.2.status = "available") = true
      · rw [if_pos hav, if_pos hav]
        simp only [List.length_cons]
        omega
      · rw [if_neg hav, if_neg hav]
        omega

theorem statusGo_count (now : Int) :
    ∀ (ids : List String) (m : SeatMap) (cleaned : Nat),
      countAvailable (statusGo now ids m cleaned).1 + cleaned =
        countAvailable m + (statusGo now ids m cleaned).2 := by
  intro ids
  induction ids with
  | nil => intro m cleaned; rfl
  | cons sid rest ih =>
    intro m cleaned
    unfold statusGo
    cases halk : alookup m sid with
    | none => simp only [halk]; exact ih m cleaned
    | some r =>
      simp only [halk]
      by_cases hx : expiredHeld r now
      · rw [if_pos hx]
        have hheld : r.status = "held" := by
          unfold expiredHeld at hx
          exact of_decide_eq_true (Bool.and_elim_left hx)
        have hb1 : availBit (some r) = 0 := by simp [availBit, hheld]
        have hb2 : availBit (some (statusCleanRec r now)) = 1 := by
          simp [availBit, statusCleanRec]
        have hstep := countAvailable_aset m sid (statusCleanRec r now)
        rw [halk] at hstep
        have := ih (aset m sid (statusCleanRec r now)) (cleaned + 1)
        omega
      · rw [if_neg hx]
        exact ih m cleaned

theorem extendGo_count (bid : String) (additional now : Int) :
    ∀ (ids : List String) (m : SeatMap) (ext : Nat),
      countAvailable (extendGo bid additional now ids m ext).1 = countAvailable m := by
  intro ids
  induction ids with
  | nil => intro m ext; rfl
  | cons sid rest ih =>
    intro m ext
    unfold extendGo
    cases halk : alookup m sid with
    | none => simp only [halk]; exact ih m ext
    | some r =>
      simp only [halk]
      by_cases h1 : r.booking_id = some bid ∧ r.status = "held"
      · rw [if_pos h1]
        by_cases h2 : r.held_until.getD now > now
        · rw [if_pos h2]
          rw [ih _ _]
          have hstep := countAvailable_aset m sid
            { r with held_until := some (r.held_until.getD now + additional) }
          rw [halk] at hstep
          have hb : availBit (some { r with
              held_until := some (r.held_until.getD now + additional) }) =
              availBit (some r) := by
            simp [availBit]
          omega
        · rw [if_neg h2]
          exact ih m ext
      · rw [if_neg h1]
        exact ih m ext

/-! ### Claim C1 -/

/-- **C1** (amended): For every batch-reserve call with valid input
(non-empty booking id, positive expiry, non-empty seat list) on a
well-formed seat table, if any requested seat is non-reservable — booked,
held with an unexpired hold *by any booking, the caller's own included*, or
not found — the script returns the full unavailable list with per-seat
reasons and leaves the seat map and the available counter completely
unchanged; otherwise every requested seat is set to held under the given
`booking_id` and `held_until`, unrequested seats are untouched, and the
counter is decremented by exactly the number of requested entries whose
prior status was `available` (seats whose hold had expired do not decrement
it again). -/
theorem c1_batch_reserve_all_or_nothing (st : ShowState) (bid : String)
    (expire now : Int) (seats : List (String × String)) (hwf : wellFormed st.seats)
    (hbid : bid ≠ "") (hexp : 0 < expire) (hne : seats ≠ []) :
    ((∃ s ∈ seats, nonReservable st.seats now s.1 = true) →
      batchReserve st bid expire now seats =
        (st, .seatsUnavailable (seats.filterMap (fun s =>
          if nonReservable st.seats now s.1 then
            some (s.1, unavailReason st.seats now s.1) else none)))) ∧
    ((∀ s ∈ seats, nonReservable st.seats now s.1 = false) →
      (batchReserve st bid expire now seats).2 = .success seats.length bid expire ∧
      (∀ s ∈ seats, ∃ ty,
        alookup (batchReserve st bid expire now seats).1.seats s.1 =
          some (heldRec bid expire ty now)) ∧
      (∀ k, k ∉ seats.map Prod.fst →
        alookup (batchReserve st bid expire now seats).1.seats k =
          alookup st.seats k) ∧
      (batchReserve st bid expire now seats).1.available =
        st.available -
          ((seats.filter (fun s => priorAvailable st.seats s.1)).length : Int)) := by
  constructor
  · intro hsome
    exact batchReserve_unavailable_spec st bid expire now seats hbid hexp hne hsome
  · intro hall
    obtain ⟨checks, hf2, heq⟩ :=
      batchReserve_success_spec st bid expire now seats hbid hexp hne hall
    have hids := (forall2_classify_ids hf2).1
    refine ⟨by rw [heq], ?_, ?_, ?_⟩
    · intro s hs
      have hmem : s.1 ∈ checks.map (fun c => c.id) := by
        rw [hids]
        exact List.mem_map.mpr ⟨s, hs, rfl⟩
      rw [heq]
      exact batchWrite_alookup_mem bid expire now checks st.seats s.1 hmem
    · intro k hk
      rw [heq]
      exact batchWrite_alookup_not_mem bid expire now checks st.seats k
        (by rw [hids]; exact hk)
    · rw [heq]
      have hfilter : (seats.filter (fun s => priorAvailable st.seats s.1)).length =
          (checks.filter (fun c => c.was_available)).length :=
        forall2_filter_length _ _ _
          (fun s c hsc => classifySeat_ok_priorAvailable hwf hsc) hf2
      simp only
      rw [hfilter]

/-- The claim as frozen is false: it counts a seat as reservable when it is
held by *another* booking with an unexpired hold, yet the script reports
`HELD` for a seat held by the requesting booking itself (`b1`, hold
unexpired at `now = 50`), returning failure where the claim requires
success. -/
theorem c1_counterexample :
    batchReserve ⟨[("A1", fxHeldB1)], 0⟩ "b1" 700 50 [("A1", "standard")] =
      (⟨[("A1", fxHeldB1)], 0⟩, .seatsUnavailable [("A1", "HELD")]) ∧
    fxHeldB1.booking_id = some "b1" ∧ fxHeldB1.status = "held" ∧
    fxHeldB1.held_until.getD 0 > 50 := by
  decide

/-- `c1_batch_reserve_all_or_nothing` applied to a concrete reservation of
one available seat. -/
theorem c1_witness :
    (batchReserve ⟨[("A1", fxAvail)], 1⟩ "b1" 700 50 [("A1", "standard")]).2 =
      .success 1 "b1" 700 :=
  ((c1_batch_reserve_all_or_nothing ⟨[("A1", fxAvail)], 1⟩ "b1" 700 50
    [("A1", "standard")] (by decide) (by decide) (by decide) (by decide)).2
    (by decide)).1

/-! ### Claim C2 -/

/-- **C2** (amended): For every showtime seat table that is well-formed
(every record's status is one of available/held/booked, and no available
record carries a `booking_id`) and every engine script — batch-reserve,
confirm-seats, release-seats, cleanup-expired-holds, get-seats-status,
extend-hold — if the counter equals the number of seats with status
`available` before the script runs, it still does after the script
completes, for every input the script accepts, *provided the batch-reserve
seat list contains no duplicate seat ids* (a duplicated available seat
decrements the counter once per occurrence and breaks the invariant, see
`c2_counterexample`). -/
theorem c2_counter_consistency (st : ShowState) (bid : String)
    (expire now add : Int) (pairs : List (String × String)) (ids : List String)
    (hwf : wellFormed st.seats) (hok : counterOk st) :
    ((pairs.map Prod.fst).Nodup → counterOk (batchReserve st bid expire now pairs).1) ∧
    counterOk ⟨(confirmSeats st.seats bid now ids).1, st.available⟩ ∧
    counterOk (releaseSeats st bid now ids).1 ∧
    counterOk (cleanupExpiredHolds st now).1 ∧
    counterOk (getSeatsStatus st now ids).1 ∧
    counterOk ⟨(extendHold st.seats bid add now ids).1, st.available⟩ := by
  refine ⟨fun hnd => batchReserve_counter st bid expire now pairs hwf hnd hok,
    ?_, ?_, ?_, ?_, ?_⟩
  · unfold confirmSeats
    by_cases h1 : bid = ""
    · simpa [h1] using hok
    rw [if_neg h1]
    by_cases h2 : ids.length = 0
    · simpa [h2] using hok
    rw [if_neg h2]
    unfold counterOk at hok ⊢
    simpa [confirmGo_count bid now ids st.seats 0 []] using hok
  · unfold releaseSeats
    by_cases h1 : bid = ""
    · simpa [h1] using hok
    rw [if_neg h1]
    by_cases h2 : ids.length = 0
    · simpa [h2] using hok
    rw [if_neg h2]
    rcases hgo : releaseGo bid now ids st.seats 0 [] with ⟨m2, rel, f⟩
    have hc := releaseGo_count bid now ids st.seats 0 [] hwf
    rw [hgo] at hc
    unfold counterOk at hok ⊢
    simp only [hgo]
    simp only at hok hc ⊢
    omega
  · unfold cleanupExpiredHolds
    have := countAvailable_map_reap now (fun r => cleanupRec r now)
      (fun r => rfl) st.seats
    unfold counterOk at hok ⊢
    simp only at hok ⊢
    omega
  · unfold getSeatsStatus
    by_cases h : ids.length > 0
    · rw [if_pos h]
      have := statusGo_count now ids st.seats 0
      unfold counterOk at hok ⊢
      simp only at hok ⊢
      omega
    · rw [if_neg h]
      have := countAvailable_map_reap now (fun r => statusCleanRec r now)
        (fun r => rfl) st.seats
      unfold counterOk at hok ⊢
      simp only at hok ⊢
      omega
  · unfold extendHold
    unfold counterOk at hok ⊢
    simpa [extendGo_count bid add now ids st.seats 0] using hok

/-- The claim as frozen is false: a batch-reserve call listing the same
available seat twice is accepted by the script (it returns success), yet it
decrements the counter twice while only one seat leaves status `available`,
so the invariant `available == count(status=available)` is broken. -/
theorem c2_counterexample :
    counterOk ⟨[("A1", fxAvail)], 1⟩ ∧
    (batchReserve ⟨[("A1", fxAvail)], 1⟩ "b2" 700 50
      [("A1", "standard"), ("A1", "standard")]).2 = .success 2 "b2" 700 ∧
    ¬ counterOk (batchReserve ⟨[("A1", fxAvail)], 1⟩ "b2" 700 50
      [("A1", "standard"), ("A1", "standard")]).1 := by
  decide

/-- `c2_counter_consistency` applied to a concrete release of a held
seat. -/
theorem c2_witness :
    counterOk (releaseSeats ⟨[("A1", fxHeldB1)], 0⟩ "b1" 120 ["A1"]).1 :=
  (c2_counter_consistency ⟨[("A1", fxHeldB1)], 0⟩ "b1" 700 120 60 [] ["A1"]
    (by decide) (by decide)).2.2.1

/-! ### Claim C4 -/

theorem confirmable_eq_of_alookup_eq {m1 m2 : SeatMap} {sid : String}
    (bid : String) (now : Int) (h : alookup m1 sid = alookup m2 sid) :
    confirmable m1 bid now sid = confirmable m2 bid now sid := by
  unfold confirmable; rw [h]

theorem confirmFailReason_eq_of_alookup_eq {m1 m2 : SeatMap} {sid : String}
    (bid : String) (now : Int) (h : alookup m1 sid = alookup m2 sid) :
    confirmFailReason m1 bid now sid = confirmFailReason m2 bid now sid := by
  unfold confirmFailReason; rw [h]

theorem confirmGo_spec (bid : String) (now : Int) :
    ∀ (ids : List String) (m : SeatMap) (cnt : Nat) (f : List (String × String)),
      ids.Nodup →
      (∀ sid ∈ ids, ∀ r, alookup m sid = some r →
        confirmable m bid now sid = true →
          alookup (confirmGo bid now ids m cnt f).1 sid = some (bookedRec r now)) ∧
      (∀ sid ∈ ids, confirmable m bid now sid = false →
        alookup (confirmGo bid now ids m cnt f).1 sid = alookup m sid ∧
          (sid, confirmFailReason m bid now sid) ∈ (confirmGo bid now ids m cnt f).2.2) ∧
      (∀ k, k ∉ ids → alookup (confirmGo bid now ids m cnt f).1 k = alookup m k) ∧
      (∀ pr ∈ f, pr ∈ (confirmGo bid now ids m cnt f).2.2) := by
  intro ids
  induction ids with
  | nil =>
    intro m cnt f _
    refine ⟨by simp, by simp, fun k _ => rfl, fun pr hpr => hpr⟩
  | cons sid0 rest ih =>
    intro m cnt f hnd
    rw [List.nodup_cons] at hnd
    unfold confirmGo
    cases halk : alookup m sid0 with
    | none =>
      simp only [halk]
      obtain ⟨ih1, ih2, ih3, ih4⟩ := ih m cnt (f ++ [(sid0, "NOT_FOUND")]) hnd.2
      have hcf : confirmable m bid now sid0 = false := by
        unfold confirmable; simp only [halk]
      have hrs : confirmFailReason m bid now sid0 = "NOT_FOUND" := by
        unfold confirmFailReason; simp only [halk]
      refine ⟨?_, ?_, ?_, ?_⟩
      · intro sid hsid r hr hc
        rcases List.mem_cons.mp hsid with hsid | hsid
        · rw [hsid] at hc; rw [hc] at hcf; exact absurd hcf (by simp)
        · exact ih1 sid hsid r hr hc
      · intro sid hsid hc
        rcases List.mem_cons.mp hsid with hsid | hsid
        · rw [hsid]
          refine ⟨ih3 sid0 hnd.1, ?_⟩
          rw [hrs]
          exact ih4 _ (by simp)
        · exact ih2 sid hsid hc
      · intro k hk
        rw [List.mem_cons] at hk
        push_neg at hk
        exact ih3 k hk.2
      · intro pr hpr
        exact ih4 pr (List.mem_append_left _ hpr)
    | some r0 =>
      simp only [halk]
      by_cases h1 : r0.status ≠ "held"
      · rw [if_pos h1]
        obtain ⟨ih1, ih2, ih3, ih4⟩ := ih m cnt (f ++ [(sid0, "NOT_HELD")]) hnd.2
        have hcf : confirmable m bid now sid0 = false := by
          unfold confirmable; simp only [halk]; simp [h1]
        have hrs : confirmFailReason m bid now sid0 = "NOT_HELD" := by
          unfold confirmFailReason; simp only [halk]; rw [if_pos h1]
        refine ⟨?_, ?_, ?_, ?_⟩
        · intro sid hsid r hr hc
          rcases List.mem_cons.mp hsid with hsid | hsid
          · rw [hsid] at hc; rw [hc] at hcf; exact absurd hcf (by simp)
          · exact ih1 sid hsid r hr hc
        · intro sid hsid hc
          rcases List.mem_cons.mp hsid with hsid | hsid
          · rw [hsid]
            exact ⟨ih3 sid0 hnd.1, by rw [hrs]; exact ih4 _ (by simp)⟩
          · exact ih2 sid hsid hc
        · intro k hk
          rw [List.mem_cons] at hk
          push_neg at hk
          exact ih3 k hk.2
        · intro pr hpr
          exact ih4 pr (List.mem_append_left _ hpr)
      rw [if_neg h1]
      push_neg at h1
      by_cases h2 : r0.booking_id ≠ some bid
      · rw [if_pos h2]
        obtain ⟨ih1, ih2, ih3, ih4⟩ := ih m cnt (f ++ [(sid0, "WRONG_BOOKING")]) hnd.2
        have hcf : confirmable m bid now sid0 = false := by
          unfold confirmable; simp only [halk]; simp [h2]
        have hrs : confirmFailReason m bid now sid0 = "WRONG_BOOKING" := by
          unfold confirmFailReason; simp only [halk]
          rw [if_neg (by simp [h1]), if_pos h2]
        refine ⟨?_, ?_, ?_, ?_⟩
        · intro sid hsid r hr hc
          rcases List.mem_cons.mp hsid with hsid | hsid
          · rw [hsid] at hc; rw [hc] at hcf; exact absurd hcf (by simp)
          · exact ih1 sid hsid r hr hc
        · intro sid hsid hc
          rcases List.mem_cons.mp hsid with hsid | hsid
          · rw [hsid]
            exact ⟨ih3 sid0 hnd.1, by rw [hrs]; exact ih4 _ (by simp)⟩
          · exact ih2 sid hsid hc
        · intro k hk
          rw [List.mem_cons] at hk
          push_neg at hk
          exact ih3 k hk.2
        · intro pr hpr
          exact ih4 pr (List.mem_append_left _ hpr)
      rw [if_neg h2]
      push_neg at h2
      by_cases h3 : r0.held_until.getD 0 < now
      · rw [if_pos h3]
        obtain ⟨ih1, ih2, ih3, ih4⟩ := ih m cnt (f ++ [(sid0, "HOLD_EXPIRED")]) hnd.2
        have hcf : confirmable m bid now sid0 = false := by
          unfold confirmable; simp only [halk]
          simp [not_le.mpr h3]
        have hrs : confirmFailReason m bid now sid0 = "HOLD_EXPIRED" := by
          unfold confirmFailReason; simp only [halk]
          rw [if_neg (by simp [h1]), if_neg (by simp [h2])]
        refine ⟨?_, ?_, ?_, ?_⟩
        · intro sid hsid r hr hc
          rcases List.mem_cons.mp hsid with hsid | hsid
          · rw [hsid] at hc; rw [hc] at hcf; exact absurd hcf (by simp)
          · exact ih1 sid hsid r hr hc
        · intro sid hsid hc
          rcases List.mem_cons.mp hsid with hsid | hsid
          · rw [hsid]
            exact ⟨ih3 sid0 hnd.1, by rw [hrs]; exact ih4 _ (by simp)⟩
          · exact ih2 sid hsid hc
        · intro k hk
          rw [List.mem_cons] at hk
          push_neg at hk
          exact ih3 k hk.2
        · intro pr hpr
          exact ih4 pr (List.mem_append_left _ hpr)
      · rw [if_neg h3]
        push_neg at h3
        obtain ⟨ih1, ih2, ih3, ih4⟩ :=
          ih (aset m sid0 (bookedRec r0 now)) (cnt + 1) f hnd.2
        have htrans : ∀ sid ∈ rest,
            alookup (aset m sid0 (bookedRec r0 now)) sid = alookup m sid := by
          intro sid hsid
          exact alookup_aset_ne _ _ (fun hcontra => hnd.1 (hcontra ▸ hsid))
        have hcf : confirmable m bid now sid0 = true := by
          unfold confirmable; simp only [halk]
          simp [h1, h2, h3]
        refine ⟨?_, ?_, ?_, ?_⟩
        · intro sid hsid r hr hc
          rcases List.mem_cons.mp hsid with hsid | hsid
          · rw [hsid] at hr ⊢
            rw [halk] at hr
            obtain rfl : r0 = r := by injection hr
            rw [ih3 sid0 hnd.1, alookup_aset_self]
          · refine ih1 sid hsid r ?_ ?_
            · rw [htrans sid hsid]; exact hr
            · rw [confirmable_eq_of_alookup_eq bid now (htrans sid hsid)]; exact hc
        · intro sid hsid hc
          rcases List.mem_cons.mp hsid with hsid | hsid
          · rw [hsid] at hc; rw [hc] at hcf; exact absurd hcf (by simp)
          · have := ih2 sid hsid
              (by rw [confirmable_eq_of_alookup_eq bid now (htrans sid hsid)]; exact hc)
            rw [htrans sid hsid] at this
            rwa [confirmFailReason_eq_of_alookup_eq bid now (htrans sid hsid)] at this
        · intro k hk
          rw [List.mem_cons] at hk
          push_neg at hk
          rw [ih3 k hk.2]
          exact alookup_aset_ne _ _ (fun hcontra => hk.1 hcontra.symm)
        · intro pr hpr
          exact ih4 pr hpr

/-- **C4** (amended): For every confirm-seats call with valid input and a
duplicate-free seat list, and every seat listed in it, the seat is
transitioned to booked (`held_until` cleared, `confirmed_at` set to the
script's current time) if and only if its status is `held`, its
`booking_id` equals the call's booking id, and its `held_until` is **at
least** the script's current time (the script rejects only
`held_until < now`, so a hold expiring exactly at `now` is still
confirmed); any seat failing this check is reported with a reason
(`NOT_FOUND`/`NOT_HELD`/`WRONG_BOOKING`/`HOLD_EXPIRED`) and left
unchanged, and seats already confirmed earlier in the same call are not
rolled back (unlisted seats are untouched and confirmed seats stay
booked whatever happens to later seats of the call). -/
theorem c4_confirm_seats (m : SeatMap) (bid : String) (now : Int)
    (ids : List String) (hbid : bid ≠ "") (hne : ids ≠ []) (hnd : ids.Nodup) :
    ∃ confirmed failed,
      confirmSeats m bid now ids = ((confirmSeats m bid now ids).1, .done confirmed failed) ∧
      (∀ sid ∈ ids, ∀ r, alookup m sid = some r →
        confirmable m bid now sid = true →
          alookup (confirmSeats m bid now ids).1 sid = some (bookedRec r now)) ∧
      (∀ sid ∈ ids, confirmable m bid now sid = false →
        alookup (confirmSeats m bid now ids).1 sid = alookup m sid ∧
          (sid, confirmFailReason m bid now sid) ∈ failed) ∧
      (∀ k, k ∉ ids → alookup (confirmSeats m bid now ids).1 k = alookup m k) := by
  obtain ⟨hg1, hg2, hg3, _⟩ := confirmGo_spec bid now ids m 0 [] hnd
  have hshape : confirmSeats m bid now ids =
      ((confirmGo bid now ids m 0 []).1,
        .done (confirmGo bid now ids m 0 []).2.1 (confirmGo bid now ids m 0 []).2.2) := by
    unfold confirmSeats
    rw [if_neg hbid, if_neg (by simpa using fun h => hne (List.length_eq_zero.mp h))]
  refine ⟨(confirmGo bid now ids m 0 []).2.1, (confirmGo bid now ids m 0 []).2.2,
    by rw [hshape], ?_, ?_, ?_⟩
  · intro sid hsid r hr hc
    rw [hshape]
    exact hg1 sid hsid r hr hc
  · intro sid hsid hc
    rw [hshape]
    exact hg2 sid hsid hc
  · intro k hk
    rw [hshape]
    exact hg3 k hk

/-- The claim as frozen is false at the expiry boundary: with
`held_until = now = 100` the condition "held_until strictly greater than
now" fails, so the claim forbids the transition, yet the script confirms
the seat (it only rejects `held_until < now`). -/
theorem c4_counterexample :
    confirmSeats [("A1", fxHeldB1)] "b1" 100 ["A1"] =
      ([("A1", bookedRec fxHeldB1 100)], .done 1 []) ∧
    fxHeldB1.held_until = some 100 ∧ ¬ (100 : Int) > 100 := by
  decide

/-- `c4_confirm_seats` applied to a concrete confirmation of a live
hold. -/
theorem c4_witness :
    alookup (confirmSeats [("A1", fxHeldB1)] "b1" 50 ["A1"]).1 "A1" =
      some (bookedRec fxHeldB1 50) := by
  obtain ⟨c, f, _, h1, _, _⟩ := c4_confirm_seats [("A1", fxHeldB1)] "b1" 50 ["A1"]
    (by decide) (by decide) (by decide)
  exact h1 "A1" (by decide) fxHeldB1 (by decide) (by decide)

/-! ### Claim C9 -/

theorem nonReservable_of_priorAvailable {m : SeatMap} {now : Int} {sid : String}
    (h : priorAvailable m sid = true) : nonReservable m now sid = false := by
  unfold priorAvailable at h
  unfold nonReservable
  cases halk : alookup m sid with
  | none => rw [halk] at h; simp at h
  | some r =>
    rw [halk] at h
    have hav : r.status = "available" := of_decide_eq_true h
    simp [hav]

/-- **C9**: For every batch-reserve call with valid input whose seat list
contains the same seat id more than once while the listed seats' statuses
are `available` (and the counter is consistent beforehand), the call
succeeds, the returned reserved count equals the number of list entries
counting the duplicates, the available counter is decremented once per
occurrence (so by the full list length), and the counter therefore ends
strictly lower than the number of seats whose status is `available`. -/
theorem c9_duplicate_batch_reserve (st : ShowState) (bid : String)
    (expire now : Int) (seats : List (String × String)) (hbid : bid ≠ "")
    (hexp : 0 < expire) (hne : seats ≠ [])
    (hdup : ¬ (seats.map Prod.fst).Nodup)
    (hall : ∀ s ∈ seats, priorAvailable st.seats s.1 = true)
    (hok : counterOk st) :
    (batchReserve st bid expire now seats).2 = .success seats.length bid expire ∧
    (batchReserve st bid expire now seats).1.available =
      st.available - (seats.length : Int) ∧
    (batchReserve st bid expire now seats).1.available <
      (countAvailable (batchReserve st bid expire now seats).1.seats : Int) := by
  have hallNR : ∀ s ∈ seats, nonReservable st.seats now s.1 = false :=
    fun s hs => nonReservable_of_priorAvailable (hall s hs)
  obtain ⟨checks, hf2, heq⟩ :=
    batchReserve_success_spec st bid expire now seats hbid hexp hne hallNR
  have hids := (forall2_classify_ids hf2).1
  have hlen := (forall2_classify_ids hf2).2
  have hwa : ∀ c ∈ checks, c.was_available = true := by
    intro c hc
    obtain ⟨s, hs, hsc⟩ := forall2_mem_right hf2 c hc
    obtain ⟨r, halk, hok2⟩ := classifySeat_eq_ok (hallNR s hs)
    rw [hsc] at hok2
    have hcval : c = ⟨s.1, s.2, !(decide (r.status = "held"))⟩ := by
      injection hok2
    have hpa := hall s hs
    unfold priorAvailable at hpa
    rw [halk] at hpa
    have hav : r.status = "available" := of_decide_eq_true hpa
    rw [hcval]
    simp [hav]
  have hfilter : (checks.filter (fun c => c.was_available)).length = checks.length := by
    rw [List.filter_eq_self.mpr (by intro c hc; exact hwa c hc)]
  have hge := batchWrite_ge bid expire now checks st.seats []
    (by intro k hk; simp at hk)
  have hfoc : firstOccCount checks [] < checks.length := by
    apply firstOccCount_lt
    left
    rw [hids]
    exact hdup
  refine ⟨by rw [heq], ?_, ?_⟩
  · rw [heq]
    simp only
    rw [hfilter, hlen]
  · rw [heq]
    unfold counterOk at hok
    simp only at hok ⊢
    rw [hfilter, hlen]
    omega

/-- `c9_duplicate_batch_reserve` applied to a concrete call listing the
same available seat twice. -/
theorem c9_witness :
    (batchReserve ⟨[("A1", fxAvail)], 1⟩ "b2" 700 50
      [("A1", "standard"), ("A1", "standard")]).1.available <
      (countAvailable (batchReserve ⟨[("A1", fxAvail)], 1⟩ "b2" 700 50
        [("A1", "standard"), ("A1", "standard")]).1.seats : Int) :=
  (c9_duplicate_batch_reserve ⟨[("A1", fxAvail)], 1⟩ "b2" 700 50
    [("A1", "standard"), ("A1", "standard")] (by decide) (by decide) (by decide)
    (by decide) (by decide) (by decide)).2.2

/-! ### Claim C3 -/

theorem handleWebhook_completed_noop (sys : Sys) (provider : String)
    (payload : WebhookPayload) (now : Int) (hprov : provider ∈ validProviders)
    (hc : txnCompleted sys payload.transaction_id = true) :
    handleWebhook sys provider payload now =
      (sys, .ok (true, "Payment already processed")) := by
  unfold txnCompleted at hc
  unfold handleWebhook
  rw [if_neg (not_not_intro hprov)]
  cases hfind : sys.payments.find?
      (fun p => decide (p.gateway_transaction_id = some payload.transaction_id)) with
  | none => rw [hfind] at hc; simp at hc
  | some p =>
    rw [hfind] at hc
    simp only [hfind]
    rw [if_pos (of_decide_eq_true hc)]

theorem handleWebhook_completed_state (sys : Sys) (provider : String)
    (payload : WebhookPayload) (now : Int)
    (hc : txnCompleted sys payload.transaction_id = true) :
    (handleWebhook sys provider payload now).1 = sys := by
  by_cases hprov : provider ∈ validProviders
  · rw [handleWebhook_completed_noop sys provider payload now hprov hc]
  · unfold handleWebhook
    rw [if_pos hprov]

theorem countCompletions_zero (t : String) :
    ∀ (ds : List Delivery) (sys : Sys), txnCompleted sys t = true →
      (∀ d ∈ ds, d.payload.transaction_id = t) →
      countCompletions sys t ds = 0 := by
  intro ds
  induction ds with
  | nil => intro sys _ _; rfl
  | cons d rest ih =>
    intro sys hc hall
    have ht := hall d (by simp)
    have hstate : (handleWebhook sys d.provider d.payload d.at_time).1 = sys := by
      apply handleWebhook_completed_state
      rw [ht]; exact hc
    unfold countCompletions
    rw [hstate]
    rw [if_neg (by simp [hc]),
      ih sys hc (fun d2 hd2 => hall d2 (List.mem_cons_of_mem _ hd2))]

/-- **C3**: For every payment and every sequence of webhook deliveries
carrying the same `gateway_transaction_id`, at most one delivery performs
the transition to status `completed`; and every delivery arriving once the
payment is `completed` (with a valid provider) returns a success response
and changes neither the payment record nor any seat or booking state — the
whole system state is returned untouched. -/
theorem c3_webhook_at_most_once (t : String) :
    (∀ (sys : Sys) (ds : List Delivery),
      (∀ d ∈ ds, d.payload.transaction_id = t) →
      countCompletions sys t ds ≤ 1) ∧
    (∀ (sys : Sys) (d : Delivery), d.payload.transaction_id = t →
      d.provider ∈ validProviders → txnCompleted sys t = true →
      handleWebhook sys d.provider d.payload d.at_time =
        (sys, .ok (true, "Payment already processed"))) := by
  constructor
  · intro sys ds
    induction ds generalizing sys with
    | nil => intro _; simp [countCompletions]
    | cons d rest ih =>
      intro hall
      have ht := hall d (by simp)
      have hrest : ∀ d2 ∈ rest, d2.payload.transaction_id = t :=
        fun d2 hd2 => hall d2 (List.mem_cons_of_mem _ hd2)
      unfold countCompletions
      cases hc : txnCompleted sys t with
      | true =>
        have hstate : (handleWebhook sys d.provider d.payload d.at_time).1 = sys := by
          apply handleWebhook_completed_state
          rw [ht]; exact hc
        rw [hstate, if_neg (by simp [hc]), countCompletions_zero t rest sys hc hrest]
        omega
      | false =>
        cases hc2 : txnCompleted (handleWebhook sys d.provider d.payload d.at_time).1 t with
        | true =>
          rw [countCompletions_zero t rest _ hc2 hrest]
          split <;> omega
        | false =>
          rw [if_neg (by simp [hc2])]
          simpa using ih _ hrest
  · intro sys d ht hprov hc
    exact handleWebhook_completed_noop sys d.provider d.payload d.at_time hprov
      (by rw [ht]; exact hc)

/-- `c3_webhook_at_most_once` applied to a concrete pair of redeliveries of
the same transaction, and to a redelivery after completion. -/
theorem c3_witness :
    countCompletions fxSysPay "TXN1"
      [⟨"momo", fxPayload, 95⟩, ⟨"momo", fxPayload, 96⟩] ≤ 1 ∧
    handleWebhook fxSysPayDone "momo" fxPayload 95 =
      (fxSysPayDone, .ok (true, "Payment already processed")) :=
  ⟨(c3_webhook_at_most_once "TXN1").1 fxSysPay
      [⟨"momo", fxPayload, 95⟩, ⟨"momo", fxPayload, 96⟩] (by decide),
   (c3_webhook_at_most_once "TXN1").2 fxSysPayDone ⟨"momo", fxPayload, 95⟩
      (by decide) (by decide) (by decide)⟩

/-! ### Claim C5 -/

/-- **C5** (amended): Only create-payment enforces the body-hash check: its
idempotency gatekeeper `checkIdempotencyKey` (invoked with the request-body
hash before any other work) rejects a request whose hash differs from the
one stored under the same `(key, user)` with a 400 error
(`KEY_REUSED_DIFFERENT_BODY`).  Hold-seats performs no body-hash
comparison at all: its cache is keyed only by the idempotency key, and a
second hold request with the same key returns the first request's cached
response whatever its body or user. -/
theorem c5_key_reuse_different_body :
    (∀ (store : List IdemRecord) (key userId path hash rtype : String)
        (now : Int) (r : IdemRecord),
      store.find? (fun r => decide (r.key = key) && decide (r.user_id = userId)) =
        some r →
      r.request_hash ≠ hash →
      checkIdempotencyKey store key userId path hash rtype now =
        (store, .error (400, "KEY_REUSED_DIFFERENT_BODY"))) ∧
    (∀ (sys : Sys) (stid : String) (seats : List String) (uid key bId bc : String)
        (now : Int) (persistOk : Bool) (cached : HoldSeatsResponse),
      alookup sys.holdCache key = some cached →
      holdSeats sys stid seats uid key bId bc now persistOk = (sys, .ok cached)) := by
  constructor
  · intro store key userId path hash rtype now r hfind hhash
    unfold checkIdempotencyKey
    simp only [hfind]
    rw [if_pos hhash]
  · intro sys stid seats uid key bId bc now persistOk cached hcache
    unfold holdSeats
    simp only [hcache]

/-- The claim as frozen is false for hold-seats: after a first hold with
key `k1` and body `seats = ["A1"]` completes and caches its response, a
second hold with the same key but body `seats = ["A2"]` is not rejected
with a 400 — it returns the first request's cached response. -/
theorem c5_counterexample :
    (holdSeats fxSys "st1" ["A1"] "u1" "k1" "B1" "BC1" 50 true).2 = .ok fxResp ∧
    (holdSeats (holdSeats fxSys "st1" ["A1"] "u1" "k1" "B1" "BC1" 50 true).1
      "st1" ["A2"] "u1" "k1" "B2" "BC2" 60 true).2 = .ok fxResp :=
  ⟨rfl, rfl⟩

/-- `c5_key_reuse_different_body` applied to a concrete mismatching-hash
check and a concrete cached hold. -/
theorem c5_witness :
    checkIdempotencyKey [fxIdemRec] "k1" "u1" "/payments" "h2" "payment" 0 =
      ([fxIdemRec], .error (400, "KEY_REUSED_DIFFERENT_BODY")) ∧
    holdSeats fxSysCached "st1" ["A2"] "u2" "k1" "B2" "BC2" 60 true =
      (fxSysCached, .ok fxResp) :=
  ⟨c5_key_reuse_different_body.1 [fxIdemRec] "k1" "u1" "/payments" "h2" "payment" 0
      fxIdemRec rfl (by decide),
   c5_key_reuse_different_body.2 fxSysCached "st1" ["A2"] "u2" "k1" "B2" "BC2" 60
      true fxResp rfl⟩

/-! ### Claim C6 -/

/-- **C6** (amended): For every hold-seats call in which the engine's
batch-reserve succeeded but persisting the durable booking record fails,
the orchestrator calls release-seats with the minted `booking_id` and the
attempted seats before returning, and then fails with a 409 whose error
code is `BOOKING_FAILED` (not `BOOKING_PERSIST_FAILED` as the claim
states). -/
theorem c6_persist_failure_compensation
    (sys : Sys) (stid : String) (seats : List String) (u k bId bc : String)
    (now : Int)
    (hcache : alookup sys.holdCache k = none)
    (hfind : sys.bookings.find? (fun b => decide (b.idempotency_key = k)) = none)
    (show_ : Showtime) (hshow : alookup sys.showtimes stid = some show_)
    (hstatus : show_.status = "scheduled") (hstart : now < show_.start_time)
    (infos : List SeatInfoPriced) (hinfos : prepareSeatInfos show_ seats = .ok infos)
    (st2 : ShowState) (res : Nat) (rbid : String) (rexp : Int)
    (hbatch : batchReserve (engineFor sys stid) bId (now + 600) now
      (infos.map (fun i => (i.seatId, i.seatType))) = (st2, .success res rbid rexp)) :
    holdSeats sys stid seats u k bId bc now false =
      ({ sys with engine := aset sys.engine stid (releaseSeats st2 bId now seats).1 },
       .error (409, "BOOKING_FAILED")) := by
  unfold holdSeats
  simp only [hcache, hfind, hshow]
  rw [if_neg (by simp [hstatus]), if_neg (not_le.mpr hstart)]
  simp only [hinfos, hbatch]
  rcases hrel : releaseSeats st2 bId now seats with ⟨st3, lres⟩
  simp only [hrel]
  rfl

/-- The claim as frozen is false about the error code: on a concrete
persist failure the orchestrator throws 409 `BOOKING_FAILED`, not
`BOOKING_PERSIST_FAILED`. -/
theorem c6_counterexample :
    (holdSeats fxSys "st1" ["A1"] "u1" "k1" "B1" "BC1" 50 false).2 =
      .error (409, "BOOKING_FAILED") ∧
    "BOOKING_FAILED" ≠ "BOOKING_PERSIST_FAILED" :=
  ⟨rfl, by decide⟩

/-- `c6_persist_failure_compensation` applied to a concrete failing
persist: the engine ends in the released state and the call fails 409. -/
theorem c6_witness :
    holdSeats fxSys "st1" ["A1"] "u1" "k1" "B1" "BC1" 50 false =
      ({ fxSys with
          engine := aset fxSys.engine "st1"
            (releaseSeats
              (batchReserve (engineFor fxSys "st1") "B1" (50 + 600) 50
                [("A1", "standard")]).1
              "B1" 50 ["A1"]).1 },
       .error (409, "BOOKING_FAILED")) :=
  c6_persist_failure_compensation fxSys "st1" ["A1"] "u1" "k1" "B1" "BC1" 50
    rfl rfl fxShowtime rfl rfl (by decide)
    [⟨"A1", "standard", 100⟩] rfl
    (batchReserve (engineFor fxSys "st1") "B1" (50 + 600) 50
      [("A1", "standard")]).1
    1 "B1" 650 rfl

/-! ### Claim C10 -/

/-- Inversion of a successful `holdSeats`: it either replayed the Redis
cache entry of its key, or rebuilt the response from a durable booking
carrying the key (without caching), or took the fresh path, which caches
the response under the key. -/
theorem holdSeats_ok_cases
    (sys : Sys) (stid : String) (seats : List String) (u k bId bc : String)
    (now : Int) (p : Bool) (s1 : Sys) (R : HoldSeatsResponse)
    (h : holdSeats sys stid seats u k bId bc now p = (s1, .ok R)) :
    alookup s1.holdCache k = some R ∨
    (s1 = sys ∧ alookup s1.holdCache k = none ∧
      ∃ b, s1.bookings.find? (fun b => decide (b.idempotency_key = k)) = some b ∧
        buildHoldSeatsResponse b = R) := by
  unfold holdSeats at h
  cases hcache : alookup sys.holdCache k with
  | some cached =>
    simp only [hcache, Prod.mk.injEq, Except.ok.injEq] at h
    obtain ⟨h1, h2⟩ := h
    left
    rw [← h1, hcache, h2]
  | none =>
    simp only [hcache] at h
    cases hfind : sys.bookings.find? (fun b => decide (b.idempotency_key = k)) with
    | some b =>
      simp only [hfind, Prod.mk.injEq, Except.ok.injEq] at h
      obtain ⟨h1, h2⟩ := h
      right
      refine ⟨h1.symm, by rw [← h1]; exact hcache, b, by rw [← h1]; exact hfind, h2⟩
    | none =>
      simp only [hfind] at h
      cases hshow : alookup sys.showtimes stid with
      | none => simp [hshow] at h
      | some show_ =>
        simp only [hshow] at h
        by_cases hstatus : show_.status ≠ "scheduled"
        · rw [if_pos hstatus] at h; simp at h
        rw [if_neg hstatus] at h
        by_cases hstart : show_.start_time ≤ now
        · rw [if_pos hstart] at h; simp at h
        rw [if_neg hstart] at h
        cases hinfos : prepareSeatInfos show_ seats with
        | error e => simp [hinfos] at h
        | ok infos =>
          simp only [hinfos] at h
          rcases hbatch : batchReserve (engineFor sys stid) bId (now + 600) now
              (infos.map (fun i => (i.seatId, i.seatType))) with ⟨st2, res⟩
          simp only [hbatch] at h
          cases res with
          | invalidInput e => simp at h
          | seatsUnavailable us => simp at h
          | success r rb re =>
            cases p with
            | false =>
              rw [if_neg (by simp : ¬ (false = true))] at h
              rcases hrel : releaseSeats st2 bId now seats with ⟨st3, lres⟩
              simp only [hrel] at h
              simp at h
            | true =>
              rw [if_pos rfl] at h
              simp only [Prod.mk.injEq, Except.ok.injEq] at h
              obtain ⟨h1, h2⟩ := h
              left
              rw [← h1]
              simp only
              rw [h2, alookup_aset_self]

/-- **C10**: For the hold-seats operation, the idempotency lookup depends
only on the idempotency key and not on the calling user: once a first
hold-seats request with key `k` has completed successfully (with response
`R` and post-state `s1`), any second request with the same key — whatever
its user, body, minted ids, time, or persistence outcome — returns the
same response `R` and leaves the state unchanged. -/
theorem c10_hold_cache_key_only
    (sys : Sys) (stid1 : String) (seats1 : List String) (u1 k b1 bc1 : String)
    (n1 : Int) (p1 : Bool) (s1 : Sys) (R : HoldSeatsResponse)
    (stid2 : String) (seats2 : List String) (u2 b2 bc2 : String) (n2 : Int)
    (p2 : Bool)
    (h : holdSeats sys stid1 seats1 u1 k b1 bc1 n1 p1 = (s1, .ok R)) :
    holdSeats s1 stid2 seats2 u2 k b2 bc2 n2 p2 = (s1, .ok R) := by
  rcases holdSeats_ok_cases sys stid1 seats1 u1 k b1 bc1 n1 p1 s1 R h with
    hcase | ⟨_, hnone, b, hfind, hbuild⟩
  · unfold holdSeats
    simp only [hcase]
  · unfold holdSeats
    simp only [hnone, hfind, hbuild]

/-- `c10_hold_cache_key_only` applied to a concrete first hold (user `u1`,
seats `["A1"]`) and a second call with a different user and body. -/
theorem c10_witness :
    holdSeats (holdSeats fxSys "st1" ["A1"] "u1" "k1" "B1" "BC1" 50 true).1
      "st1" ["A2"] "u2" "k1" "B2" "BC2" 60 false =
      ((holdSeats fxSys "st1" ["A1"] "u1" "k1" "B1" "BC1" 50 true).1, .ok fxResp) :=
  c10_hold_cache_key_only fxSys "st1" ["A1"] "u1" "k1" "B1" "BC1" 50 true
    (holdSeats fxSys "st1" ["A1"] "u1" "k1" "B1" "BC1" 50 true).1 fxResp
    "st1" ["A2"] "u2" "B2" "BC2" 60 false rfl

/-! ### Claim C7 -/

theorem forall2_mem_left {α β : Type _} {R : α → β → Prop} :
    ∀ {as : List α} {bs : List β}, List.Forall₂ R as bs →
      ∀ a ∈ as, ∃ b ∈ bs, R a b := by
  intro as bs h
  induction h with
  | nil => intro a ha; simp at ha
  | @cons a2 b2 as2 bs2 hab _ ih =>
    intro a ha
    rcases List.mem_cons.mp ha with ha | ha
    · exact ⟨b2, by simp, ha ▸ hab⟩
    · obtain ⟨b3, hb3, hr⟩ := ih a ha
      exact ⟨b3, List.mem_cons_of_mem _ hb3, hr⟩

theorem prepareSeatInfos_ids {show_ : Showtime} :
    ∀ {seats : List String} {infos : List SeatInfoPriced},
      prepareSeatInfos show_ seats = .ok infos →
      infos.map (fun i => i.seatId) = seats := by
  intro seats
  induction seats with
  | nil => intro infos h; unfold prepareSeatInfos at h; injection h with h; simp [← h]
  | cons sid rest ih =>
    intro infos h
    unfold prepareSeatInfos at h
    cases halk : alookup show_.seats sid with
    | none => rw [halk] at h; simp at h
    | some ty0 =>
      rw [halk] at h
      simp only at h
      cases hrec : prepareSeatInfos show_ rest with
      | error e => rw [hrec] at h; simp at h
      | ok infos2 =>
        rw [hrec] at h
        simp only at h
        injection h with h
        rw [← h]
        simp [ih hrec]

theorem find?_append_singleton {α : Type _} (p : α → Bool) (x : α) :
    ∀ (l : List α), (∀ y ∈ l, p y = false) →
      (l ++ [x]).find? p = if p x then some x else none := by
  intro l
  induction l with
  | nil =>
    intro _
    cases hp : p x <;> simp [List.find?, hp]
  | cons a rest ih =>
    intro hall
    have ha := hall a (by simp)
    simp only [List.cons_append, List.find?, ha]
    exact ih (fun y hy => hall y (List.mem_cons_of_mem _ hy))

theorem releaseGo_matched (bid : String) (now : Int) :
    ∀ (ids : List String) (m : SeatMap) (rel : Nat) (f : List (String × String)),
      ids.Nodup →
      (∀ sid ∈ ids, ∃ r, alookup m sid = some r ∧ r.booking_id = some bid) →
      (∀ sid r, sid ∈ ids → alookup m sid = some r →
        alookup (releaseGo bid now ids m rel f).1 sid =
          some (releasedRec r.seat_type now bid)) ∧
      (∀ k, k ∉ ids → alookup (releaseGo bid now ids m rel f).1 k = alookup m k) ∧
      (releaseGo bid now ids m rel f).2.1 = rel + ids.length := by
  intro ids
  induction ids with
  | nil =>
    intro m rel f _ _
    exact ⟨by simp, fun k _ => rfl, by simp [releaseGo]⟩
  | cons sid0 rest ih =>
    intro m rel f hnd hmatch
    rw [List.nodup_cons] at hnd
    obtain ⟨r0, halk0, hb0⟩ := hmatch sid0 (by simp)
    unfold releaseGo
    simp only [halk0]
    rw [if_neg (by simp [hb0])]
    have htrans : ∀ sid ∈ rest,
        alookup (aset m sid0 (releasedRec r0.seat_type now bid)) sid =
          alookup m sid := by
      intro sid hsid
      exact alookup_aset_ne _ _ (fun hcontra => hnd.1 (hcontra ▸ hsid))
    obtain ⟨ih1, ih2, ih3⟩ := ih (aset m sid0 (releasedRec r0.seat_type now bid))
      (rel + 1) f hnd.2
      (by
        intro sid hsid
        obtain ⟨r, hr, hb⟩ := hmatch sid (List.mem_cons_of_mem _ hsid)
        exact ⟨r, by rw [htrans sid hsid]; exact hr, hb⟩)
    refine ⟨?_, ?_, ?_⟩
    · intro sid r hsid hr
      rcases List.mem_cons.mp hsid with hsid | hsid
      · rw [hsid] at hr ⊢
        rw [halk0] at hr
        obtain rfl : r0 = r := by injection hr
        rw [ih2 sid0 hnd.1, alookup_aset_self]
      · exact ih1 sid r hsid (by rw [htrans sid hsid]; exact hr)
    · intro k hk
      rw [List.mem_cons] at hk
      push_neg at hk
      rw [ih2 k hk.2]
      exact alookup_aset_ne _ _ (fun hcontra => hk.1 hcontra.symm)
    · rw [ih3]
      simp only [List.length_cons]
      omega

/-- The fresh success path of `holdSeats` with a persisting store: the
engine key is committed, the booking persisted, and the response cached. -/
theorem holdSeats_success_eq
    (sys : Sys) (stid : String) (seats : List String) (u k bId bc : String)
    (now : Int)
    (hcache : alookup sys.holdCache k = none)
    (hfind : sys.bookings.find? (fun b => decide (b.idempotency_key = k)) = none)
    (show_ : Showtime) (hshow : alookup sys.showtimes stid = some show_)
    (hstatus : show_.status = "scheduled") (hstart : now < show_.start_time)
    (infos : List SeatInfoPriced) (hinfos : prepareSeatInfos show_ seats = .ok infos)
    (st2 : ShowState) (res : Nat) (rbid : String) (rexp : Int)
    (hbatch : batchReserve (engineFor sys stid) bId (now + 600) now
      (infos.map (fun i => (i.seatId, i.seatType))) = (st2, .success res rbid rexp)) :
    holdSeats sys stid seats u k bId bc now true =
      ({ sys with
          engine := aset sys.engine stid st2,
          bookings := sys.bookings ++ [mkPendingBooking stid infos u k bId bc now],
          holdCache := aset sys.holdCache k
            (buildHoldSeatsResponse (mkPendingBooking stid infos u k bId bc now)) },
       .ok (buildHoldSeatsResponse (mkPendingBooking stid infos u k bId bc now))) := by
  unfold holdSeats
  simp only [hcache, hfind, hshow]
  rw [if_neg (by simp [hstatus]), if_neg (not_le.mpr hstart)]
  simp only [hinfos, hbatch]
  rfl

/-- The successful path of `cancelBooking` on an owned pending booking:
release the booking's seats and mark it cancelled. -/
theorem engineFor_eq_of_engine {sys2 : Sys} {stid : String} {Q : ShowState}
    (h : alookup sys2.engine stid = some Q) : engineFor sys2 stid = Q := by
  unfold engineFor
  rw [h]
  rfl

theorem cancelBooking_pending_eq (sys : Sys) (bId u : String)
    (reason : Option String) (now2 : Int) (b : Booking)
    (hfindb : sys.bookings.find? (fun b => decide (b.id = bId)) = some b)
    (howner : b.user_id = u) (hpending : b.status = "pending") :
    cancelBooking sys bId u reason now2 =
      ({ sys with
          engine := aset sys.engine b.showtime_id
            (releaseSeats (engineFor sys b.showtime_id) bId now2
              (b.seats.map (fun s => s.seat_id))).1,
          bookings := updateBookingById sys.bookings bId (fun c =>
            { c with status := "cancelled", cancelled_at := some now2,
                     cancellation_reason := some (reason.getD ("Cancelled by user")) }) },
       .ok { booking_id := b.id, booking_code := b.booking_code,
             status := "cancelled", cancelled_at := now2,
             seats_released := b.seats.map (fun s => s.seat_id) }) := by
  unfold cancelBooking
  simp only [hfindb]
  rw [if_neg (by simp [howner]), if_neg (by simp [hpending])]

/-- **C7** (amended): For every showtime state whose engine records agree
with the showtime's seat metadata and in which every requested seat is
`available`, a successful hold of a set of seats (fresh idempotency key,
fresh booking id, persisting store) immediately followed by a cancel of
that booking leaves the available counter, and every seat's status and
seat type, equal to their pre-hold values (audit fields such as
`released_at` may differ; a seat whose pre-hold state was an expired hold
does not return to it — see `c7_counterexample`). -/
theorem c7_hold_cancel_round_trip
    (sys : Sys) (stid : String) (seats : List String) (u k bId bc : String)
    (now now2 : Int) (reason : Option String)
    (hbId : bId ≠ "") (hexp : 0 < now + 600) (hne : seats ≠ []) (hnd : seats.Nodup)
    (hcache : alookup sys.holdCache k = none)
    (hfind : sys.bookings.find? (fun b => decide (b.idempotency_key = k)) = none)
    (hfresh : ∀ b ∈ sys.bookings, b.id ≠ bId)
    (show_ : Showtime) (hshow : alookup sys.showtimes stid = some show_)
    (hstatus : show_.status = "scheduled") (hstart : now < show_.start_time)
    (infos : List SeatInfoPriced) (hinfos : prepareSeatInfos show_ seats = .ok infos)
    (havail : ∀ i ∈ infos, ∃ r, alookup (engineFor sys stid).seats i.seatId = some r ∧
      r.status = "available" ∧ r.seat_type = i.seatType) :
    ∃ s1 R s2 C,
      holdSeats sys stid seats u k bId bc now true = (s1, .ok R) ∧
      cancelBooking s1 bId u reason now2 = (s2, .ok C) ∧
      (engineFor s2 stid).available = (engineFor sys stid).available ∧
      (∀ sid, (alookup (engineFor s2 stid).seats sid).map statusType =
        (alookup (engineFor sys stid).seats sid).map statusType) := by
  have hids : infos.map (fun i => i.seatId) = seats := prepareSeatInfos_ids hinfos
  have hpairs_fst : (infos.map (fun i => (i.seatId, i.seatType))).map Prod.fst = seats := by
    rw [List.map_map]
    exact hids
  have hne_pairs : infos.map (fun i => (i.seatId, i.seatType)) ≠ [] := by
    intro hcontra
    apply hne
    rw [← hpairs_fst, hcontra]
    rfl
  have hpa : ∀ s ∈ infos.map (fun i => (i.seatId, i.seatType)),
      priorAvailable (engineFor sys stid).seats s.1 = true := by
    intro s hs
    obtain ⟨i, hi, hieq⟩ := List.mem_map.mp hs
    obtain ⟨r, hr, hav, _⟩ := havail i hi
    unfold priorAvailable
    rw [← hieq]
    simp only
    rw [hr]
    simp [hav]
  have hallNR : ∀ s ∈ infos.map (fun i => (i.seatId, i.seatType)),
      nonReservable (engineFor sys stid).seats now s.1 = false :=
    fun s hs => nonReservable_of_priorAvailable (hpa s hs)
  obtain ⟨checks, hf2, heq⟩ := batchReserve_success_spec (engineFor sys stid) bId
    (now + 600) now (infos.map (fun i => (i.seatId, i.seatType))) hbId
    hexp hne_pairs hallNR
  have hcids := (forall2_classify_ids hf2).1
  have hchecks_nd : (checks.map (fun c => c.id)).Nodup := by
    rw [hcids, hpairs_fst]
    exact hnd
  -- every requested seat ends held with its requested seat type
  have hheld : ∀ i ∈ infos,
      alookup (batchWrite bId (now + 600) now (engineFor sys stid).seats checks)
        i.seatId = some (heldRec bId (now + 600) i.seatType now) := by
    intro i hi
    obtain ⟨c, hc, hrc⟩ := forall2_mem_left hf2 (i.seatId, i.seatType)
      (List.mem_map.mpr ⟨i, hi, rfl⟩)
    obtain ⟨hcid, hcty⟩ := classifySeat_ok_val hrc
    have := batchWrite_alookup_nodup bId (now + 600) now checks
      (engineFor sys stid).seats hchecks_nd c hc
    rw [hcid, hcty] at this
    exact this
  -- the decrement equals the request length
  have hwa : ∀ c ∈ checks, c.was_available = true := by
    intro c hc
    obtain ⟨s, hs, hsc⟩ := forall2_mem_right hf2 c hc
    obtain ⟨r, halk, hok2⟩ := classifySeat_eq_ok (hallNR s hs)
    rw [hsc] at hok2
    have hcval : c = ⟨s.1, s.2, !(decide (r.status = "held"))⟩ := by injection hok2
    have hpaS := hpa s hs
    unfold priorAvailable at hpaS
    rw [halk] at hpaS
    have hav : r.status = "available" := of_decide_eq_true hpaS
    rw [hcval]
    simp [hav]
  have hdec : (checks.filter (fun c => c.was_available)).length = seats.length := by
    rw [List.filter_eq_self.mpr hwa, (forall2_classify_ids hf2).2, List.length_map,
      ← hids, List.length_map]
  -- the hold
  have hhold := holdSeats_success_eq sys stid seats u k bId bc now hcache hfind
    show_ hshow hstatus hstart infos hinfos _ _ _ _ heq
  set S1 := (holdSeats sys stid seats u k bId bc now true).1 with hS1def
  have hproj : S1 =
      { sys with
          engine := aset sys.engine stid
            ⟨batchWrite bId (now + 600) now (engineFor sys stid).seats checks,
              (engineFor sys stid).available -
                ((checks.filter (fun c => c.was_available)).length : Int)⟩,
          bookings := sys.bookings ++ [mkPendingBooking stid infos u k bId bc now],
          holdCache := aset sys.holdCache k
            (buildHoldSeatsResponse (mkPendingBooking stid infos u k bId bc now)) } := by
    rw [hS1def, hhold]
  -- the cancel finds the freshly persisted booking
  have hfindb : S1.bookings.find? (fun b => decide (b.id = bId)) =
      some (mkPendingBooking stid infos u k bId bc now) := by
    rw [hproj]
    simp only
    rw [find?_append_singleton _ _ _ (by intro y hy; simp [hfresh y hy]),
      if_pos (by simp [mkPendingBooking])]
  have hcancel := cancelBooking_pending_eq S1 bId u reason now2
    (mkPendingBooking stid infos u k bId bc now) hfindb rfl rfl
  have hbseats : (mkPendingBooking stid infos u k bId bc now).seats.map
      (fun s => s.seat_id) = seats := by
    simp only [mkPendingBooking, List.map_map]
    exact hids
  have hshowid : (mkPendingBooking stid infos u k bId bc now).showtime_id = stid := rfl
  rw [hshowid, hbseats] at hcancel
  have hengine1 : engineFor S1 stid =
      ⟨batchWrite bId (now + 600) now (engineFor sys stid).seats checks,
        (engineFor sys stid).available -
          ((checks.filter (fun c => c.was_available)).length : Int)⟩ := by
    rw [hproj]
    unfold engineFor
    simp only
    rw [alookup_aset_self]
    rfl
  rw [hengine1] at hcancel
  -- the release the cancel performs
  obtain ⟨rg1, rg2, rg3⟩ := releaseGo_matched bId now2 seats
    (batchWrite bId (now + 600) now (engineFor sys stid).seats checks) 0 [] hnd
    (by
      intro sid hsid
      rw [← hids] at hsid
      obtain ⟨i, hi, hisid⟩ := List.mem_map.mp hsid
      refine ⟨heldRec bId (now + 600) i.seatType now, ?_, rfl⟩
      rw [← hisid]
      exact hheld i hi)
  have hrelease : releaseSeats
      (⟨batchWrite bId (now + 600) now (engineFor sys stid).seats checks,
        (engineFor sys stid).available -
          ((checks.filter (fun c => c.was_available)).length : Int)⟩ : ShowState)
      bId now2 seats =
      (⟨(releaseGo bId now2 seats
          (batchWrite bId (now + 600) now (engineFor sys stid).seats checks) 0 []).1,
        (engineFor sys stid).available -
          ((checks.filter (fun c => c.was_available)).length : Int) +
          ((releaseGo bId now2 seats
            (batchWrite bId (now + 600) now (engineFor sys stid).seats checks)
            0 []).2.1 : Int)⟩,
       .done (releaseGo bId now2 seats
          (batchWrite bId (now + 600) now (engineFor sys stid).seats checks) 0 []).2.1
        (releaseGo bId now2 seats
          (batchWrite bId (now + 600) now (engineFor sys stid).seats checks)
          0 []).2.2) := by
    unfold releaseSeats
    rw [if_neg hbId,
      if_neg (by simpa using fun h => hne (List.length_eq_zero.mp h))]
  rw [hrelease] at hcancel
  refine ⟨S1, buildHoldSeatsResponse (mkPendingBooking stid infos u k bId bc now),
    _, _, by rw [hproj]; exact hhold, hcancel, ?_, ?_⟩
  · -- counter restored
    rw [engineFor_eq_of_engine (alookup_aset_self S1.engine stid _)]
    simp only
    rw [rg3, hdec]
    omega
  · -- seat statuses restored
    intro sid
    rw [engineFor_eq_of_engine (alookup_aset_self S1.engine stid _)]
    simp only
    by_cases hmem : sid ∈ seats
    · have hmem2 : sid ∈ infos.map (fun i => i.seatId) := by rw [hids]; exact hmem
      obtain ⟨i, hi, hisid⟩ := List.mem_map.mp hmem2
      have hlhs := rg1 sid (heldRec bId (now + 600) i.seatType now) hmem
        (by rw [← hisid]; exact hheld i hi)
      rw [hlhs]
      obtain ⟨r, hr, hav, hty⟩ := havail i hi
      rw [← hisid, hr]
      simp [statusType, releasedRec, heldRec, hav, hty]
    · rw [rg2 sid hmem,
        batchWrite_alookup_not_mem bId (now + 600) now checks
          (engineFor sys stid).seats sid (by rw [hcids, hpairs_fst]; exact hmem)]

/-- The claim as frozen is false when a requested seat carried an expired
hold before the hold: on `fxSysExpired` (seat `A1` expired-held, counter
consistently 0) a hold immediately followed by a cancel succeeds, yet the
counter ends at 1 and the seat ends `available` — neither equals its
pre-hold value. -/
theorem c7_counterexample :
    (engineFor fxSysExpired "st1").available = 0 ∧
    (holdSeats fxSysExpired "st1" ["A1"] "u1" "k1" "B1" "BC1" 50 true).2 =
      .ok { booking_id := "B1", booking_code := "BC1", showtime_id := "st1",
            seats := ["A1"], total_amount := 100, final_amount := 100,
            currency := "VND", status := "pending", held_at := 50,
            hold_expires_at := 650, created_at := 50 } ∧
    (cancelBooking (holdSeats fxSysExpired "st1" ["A1"] "u1" "k1" "B1" "BC1"
        50 true).1 "B1" "u1" none 60).2 =
      .ok { booking_id := "B1", booking_code := "BC1", status := "cancelled",
            cancelled_at := 60, seats_released := ["A1"] } ∧
    (engineFor (cancelBooking (holdSeats fxSysExpired "st1" ["A1"] "u1" "k1"
        "B1" "BC1" 50 true).1 "B1" "u1" none 60).1 "st1").available = 1 :=
  ⟨rfl, rfl, rfl, rfl⟩

/-- `c7_hold_cancel_round_trip` applied to a concrete hold-then-cancel of
one available seat. -/
theorem c7_witness :
    ∃ s1 R s2 C,
      holdSeats fxSys "st1" ["A1"] "u1" "k1" "B1" "BC1" 50 true = (s1, .ok R) ∧
      cancelBooking s1 "B1" "u1" none 60 = (s2, .ok C) ∧
      (engineFor s2 "st1").available = (engineFor fxSys "st1").available ∧
      (∀ sid, (alookup (engineFor s2 "st1").seats sid).map statusType =
        (alookup (engineFor fxSys "st1").seats sid).map statusType) :=
  c7_hold_cancel_round_trip fxSys "st1" ["A1"] "u1" "k1" "B1" "BC1" 50 60 none
    (by decide) (by decide) (by decide) (by decide) rfl rfl
    (by intro b hb; simp [fxSys] at hb) fxShowtime rfl rfl (by decide)
    [⟨"A1", "standard", 100⟩] rfl
    (by
      intro i hi
      simp only [List.mem_singleton] at hi
      subst hi
      exact ⟨fxAvail, rfl, rfl, rfl⟩)

/-! ### C8: stability of the request-body hash under key permutation -/

theorem sortJFields_eq_map (l : List (String × JVal)) :
    sortJFields l = l.map (fun p => (p.1, sortObjectKeys p.2)) := by
  induction l with
  | nil => rfl
  | cons p ps ih => simp [sortJFields, ih]

theorem kpf_keys {fs gs : List (String × JVal)} (h : KeyPermFields fs gs) :
    fs.map Prod.fst = gs.map Prod.fst := by
  induction fs generalizing gs with
  | nil => cases h; rfl
  | cons p ps ih =>
    cases h with
    | cons hv ht => simpa using ih ht

/-- Two permuted field lists with pairwise-distinct keys have the same
insertion sort: both results are `keyLT`-sorted permutations of the same
multiset, and `keyLT` is antisymmetric. -/
theorem insertionSort_keyLE_eq_of_perm {l1 l2 : List (String × JVal)}
    (hp : l1.Perm l2) (hnd : (l1.map Prod.fst).Nodup) :
    List.insertionSort keyLE l1 = List.insertionSort keyLE l2 := by
  have hs1 : List.Sorted keyLE (List.insertionSort keyLE l1) :=
    List.sorted_insertionSort keyLE l1
  have hs2 : List.Sorted keyLE (List.insertionSort keyLE l2) :=
    List.sorted_insertionSort keyLE l2
  have hp1 : (List.insertionSort keyLE l1).Perm l1 :=
    List.perm_insertionSort keyLE l1
  have hp2 : (List.insertionSort keyLE l2).Perm l2 :=
    List.perm_insertionSort keyLE l2
  have hpp : (List.insertionSort keyLE l1).Perm (List.insertionSort keyLE l2) :=
    hp1.trans (hp.trans hp2.symm)
  have hnd1 : ((List.insertionSort keyLE l1).map Prod.fst).Nodup :=
    ((hp1.map Prod.fst).nodup_iff).mpr hnd
  have hnd2 : ((List.insertionSort keyLE l2).map Prod.fst).Nodup :=
    ((hpp.map Prod.fst).nodup_iff).mp hnd1
  have hstrict : ∀ (l : List (String × JVal)), List.Sorted keyLE l →
      (l.map Prod.fst).Nodup → List.Sorted keyLT l := by
    intro l hs hn
    have hn' : List.Pairwise (fun a b => a ≠ b) (l.map Prod.fst) := hn
    have hne : l.Pairwise (fun p q => p.1 ≠ q.1) := List.pairwise_map.mp hn'
    exact (hs.and hne).imp (fun h => lt_of_le_of_ne h.1 h.2)
  exact List.eq_of_perm_of_sorted hpp (hstrict _ hs1 hnd1) (hstrict _ hs2 hnd2)

mutual

/-- Canonicalization is invariant under recursive key permutation of a
well-formed body. -/
theorem sortKP : ∀ {a b : JVal}, KeyPerm a b → WFKeys a →
    sortObjectKeys a = sortObjectKeys b
  | _, _, .jnull, _ => rfl
  | _, _, .jbool _, _ => rfl
  | _, _, .jnum _, _ => rfl
  | _, _, .jstr _, _ => rfl
  | _, _, .jarr h, hwf => by
    simp only [sortObjectKeys]
    exact congrArg JVal.jarr (sortKPList h hwf)
  | _, _, @KeyPerm.jobj fs gs hs hfg hp, hwf => by
    simp only [sortObjectKeys]
    have h1 : sortJFields fs = sortJFields gs := sortKPFields hfg hwf.2
    have hnd : (gs.map Prod.fst).Nodup := by
      rw [← kpf_keys hfg]
      exact hwf.1
    have hndm : ((sortJFields gs).map Prod.fst).Nodup := by
      rw [sortJFields_eq_map, List.map_map]
      exact hnd
    have hpm : (sortJFields gs).Perm (sortJFields hs) := by
      rw [sortJFields_eq_map, sortJFields_eq_map]
      exact hp.map _
    rw [h1, insertionSort_keyLE_eq_of_perm hpm hndm]

theorem sortKPList : ∀ {xs ys : List JVal}, KeyPermList xs ys → WFKeysList xs →
    sortJList xs = sortJList ys
  | _, _, .nil, _ => rfl
  | _, _, .cons hx ht, hwf => by
    simp only [sortJList]
    rw [sortKP hx hwf.1, sortKPList ht hwf.2]

theorem sortKPFields : ∀ {fs gs : List (String × JVal)},
    KeyPermFields fs gs → WFKeysFields fs → sortJFields fs = sortJFields gs
  | _, _, .nil, _ => rfl
  | _, _, .cons hv ht, hwf => by
    simp only [sortJFields]
    rw [sortKP hv hwf.1, sortKPFields ht hwf.2]

end

/-- **C8.** For every request body `B` whose mappings have pairwise-distinct
keys and every recursive permutation of the keys of the mappings inside `B`
(sequences keeping their order), the request-body hash of the permuted body
equals the hash of `B`: `hashRequestBody` serializes
`sortObjectKeys(body)`, and `sortObjectKeys` maps both bodies to the same
canonical form. -/
theorem c8_body_hash_stability (sha : String → String) (a b : JVal)
    (hperm : KeyPerm a b) (hwf : WFKeys a) :
    hashRequestBody sha a = hashRequestBody sha b := by
  unfold hashRequestBody
  rw [sortKP hperm hwf]

/-- `c8_body_hash_stability` applied to the two-field object
`{b:1, a:2}` and its key-swapped form `{a:2, b:1}`. -/
theorem c8_witness :
    hashRequestBody (fun s => s)
        (.jobj [("b", .jnum 1), ("a", .jnum 2)]) =
      hashRequestBody (fun s => s)
        (.jobj [("a", .jnum 2), ("b", .jnum 1)]) :=
  c8_body_hash_stability (fun s => s) _ _
    (KeyPerm.jobj
      (KeyPermFields.cons (KeyPerm.jnum 1)
        (KeyPermFields.cons (KeyPerm.jnum 2) KeyPermFields.nil))
      (List.Perm.swap ("a", JVal.jnum 2) ("b", JVal.jnum 1) []))
    ⟨by decide, trivial, trivial, trivial⟩

end FsBooking

